import Mathlib


/-!
Verification development for the segment-dominance portfolio optimizer
(`src/core/optimizer.py` of the apriori_ad_simulator repository).

The Python code is embedded shallowly:

* Python numbers (ints and the float results of `np.mean`, divisions and
  `round`) are modelled as exact rationals.  To keep every definition
  kernel-executable we compute with `Frac`, an unreduced fraction type
  whose arithmetic is plain integer arithmetic; `Frac.toQ` maps it to `ℚ`
  and homomorphism lemmas transport every statement to the rational
  numbers.  Python's `round(x, d)` (banker's rounding) is `Frac.pyRound`.
* Python dicts are modelled as association lists in insertion order, or,
  when every key's value is determined pointwise, as the ordered list of
  keys together with a value function.
* Python lists are Lean lists; `str` is `String`; the pydantic `Literal`
  enums are inductive types.
-/

/-- An unreduced fraction: an integer numerator and a positive natural
denominator.  No gcd normalisation is performed, so all operations are
kernel-computable integer arithmetic. -/
structure Frac where
  num : Int
  den : Nat
  den_pos : 0 < den

namespace Frac


def ofNat (n : Nat) : Frac := ⟨n, 1, Nat.one_pos⟩


def ofInt (n : Int) : Frac := ⟨n, 1, Nat.one_pos⟩


def add (a b : Frac) : Frac :=
  ⟨a.num * b.den + b.num * a.den, a.den * b.den, Nat.mul_pos a.den_pos b.den_pos⟩


def sub (a b : Frac) : Frac :=
  ⟨a.num * b.den - b.num * a.den, a.den * b.den, Nat.mul_pos a.den_pos b.den_pos⟩


def mul (a b : Frac) : Frac :=
  ⟨a.num * b.num, a.den * b.den, Nat.mul_pos a.den_pos b.den_pos⟩


def div (a b : Frac) : Frac :=
  if h : b.num = 0 then ⟨0, 1, Nat.one_pos⟩
  else ⟨a.num * b.den * b.num.sign, a.den * b.num.natAbs,
        Nat.mul_pos a.den_pos (Int.natAbs_pos.mpr h)⟩


def ble (a b : Frac) : Bool := a.num * b.den ≤ b.num * a.den


def blt (a b : Frac) : Bool := a.num * b.den < b.num * a.den


def beq (a b : Frac) : Bool := a.num * b.den = b.num * a.den


/-- Floor of a fraction, as an integer (`Int` division is Euclidean
division, which is floor division for a positive denominator). -/
def floor (a : Frac) : Int := a.num / a.den


instance : Add Frac := ⟨add⟩

instance : Sub Frac := ⟨sub⟩

instance : Mul Frac := ⟨mul⟩

instance : Div Frac := ⟨div⟩

instance (n : Nat) : OfNat Frac n := ⟨ofNat n⟩


/-- The rational number denoted by a fraction. -/
def toQ (a : Frac) : ℚ := (a.num : ℚ) / (a.den : ℚ)


/-- One half, used for the rounding tie test. -/
def half : Frac := ⟨1, 2, by omega⟩


/-- Round a fraction to the nearest integer with ties to even, i.e. the
semantics of Python's builtin `round` at `ndigits = 0` (read over exact
rationals rather than binary floats). -/
def rnd (x : Frac) : Int :=
  if (x - ofInt x.floor).blt half then x.floor
  else if half.blt (x - ofInt x.floor) then x.floor + 1
  else if x.floor % 2 = 0 then x.floor else x.floor + 1


/-- Python's `round(x, d)` for `d ≥ 1`, over exact rationals. -/
def pyRound (x : Frac) (d : Nat) : Frac :=
  ⟨rnd (x * ofNat (10 ^ d)), 10 ^ d, Nat.pos_pow_of_pos d (by omega)⟩


/-- `np.mean` over a list of naturals, with the empty list sent to `0`
(the code only takes means of lists it has checked to be non-empty). -/
def meanNat (l : List Nat) : Frac := Frac.ofNat l.sum / Frac.ofNat l.length

end Frac


instance : DecidableEq Frac := fun a b =>
  decidable_of_iff (a.num = b.num ∧ a.den = b.den) (by
    cases a
    cases b
    simp)


/-! ### Dict and list helpers

Python dicts preserve insertion order.  `insertOrderDedup` produces the
key list of a dict built by repeated assignment (first occurrence wins the
position), `alookup` reads an association list, and `upsertWith` models a
single `defaultdict`-style in-place update. -/

def insertOrderDedup {α : Type} [DecidableEq α] (l : List α) : List α :=
  l.foldl (fun acc x => if x ∈ acc then acc else acc ++ [x]) []


def alookup {β : Type} (m : List (String × β)) (k : String) : Option β :=
  match m with
  | [] => none
  | p :: rest => if p.1 = k then some p.2 else alookup rest k


def upsertWith {β : Type} (m : List (String × β)) (k : String) (f : β → β) (d : β) :
    List (String × β) :=
  match m with
  | [] => [(k, f d)]
  | p :: rest => if p.1 = k then (k, f p.2) :: rest else p :: upsertWith rest k f d


/-- Python's `max(l, key=f)` keeps the first element attaining the maximum
and raises on an empty sequence; `none` models the raise. -/
def argmaxFirst {α : Type} (l : List α) (f : α → Frac) : Option α :=
  l.foldl
    (fun acc x =>
      match acc with
      | none => some x
      | some b => if (f b).blt (f x) then some x else some b)
    none


/-- Python's `sum` of fractions (starts from `0`, folds left). -/
def sumFrac (l : List Frac) : Frac := l.foldl (· + ·) 0


/-- Stable insertion step for a descending sort by key: an element is
placed before the first existing element whose key is not larger, so that
earlier elements with equal keys stay first. -/
def insertDescBy {α : Type} (key : α → Frac) (x : α) : List α → List α
  | [] => [x]
  | y :: ys => if (key y).ble (key x) then x :: y :: ys else y :: insertDescBy key x ys


/-- Python's `list.sort(key=key, reverse=True)`: stable descending sort. -/
def sortDescBy {α : Type} (key : α → Frac) (l : List α) : List α :=
  l.foldr (insertDescBy key) []


/-! ### String helpers

All string functions used by the optimizer are reimplemented over
`String.data` with structural recursion so they are kernel-computable:
`strLower` (`str.lower`), `strContains` (`sub in s`), `strReplace`
(`str.replace`, for non-empty patterns as in the source), `strLt`
(Python's lexicographic `<` on code points), `joinSep` (`sep.join`),
`pySplitUnderscore` (`s.split("_")`). -/

def strLower (s : String) : String := ⟨s.data.map Char.toLower⟩


def hasInfixAux (pat : List Char) : List Char → Bool
  | [] => pat.isEmpty
  | c :: rest => pat.isPrefixOf (c :: rest) || hasInfixAux pat rest


def strContains (s sub : String) : Bool := hasInfixAux sub.data s.data


def replaceAux (pat repl : List Char) : Nat → List Char → List Char
  | _, [] => []
  | 0, l => l
  | fuel + 1, c :: rest =>
    if pat ≠ [] ∧ pat.isPrefixOf (c :: rest) then
      repl ++ replaceAux pat repl fuel ((c :: rest).drop pat.length)
    else
      c :: replaceAux pat repl fuel rest


def strReplace (s pat repl : String) : String :=
  ⟨replaceAux pat.data repl.data s.data.length s.data⟩


def charListLt : List Char → List Char → Bool
  | [], [] => false
  | [], _ :: _ => true
  | _ :: _, [] => false
  | a :: as, b :: bs => if a < b then true else if b < a then false else charListLt as bs


def strLt (a b : String) : Bool := charListLt a.data b.data


def insertAscStr (x : String) : List String → List String
  | [] => [x]
  | y :: ys => if strLt x y then x :: y :: ys else y :: insertAscStr x ys


/-- Python's `sorted` on a list of (distinct) strings. -/
def sortStrings (l : List String) : List String := l.foldr insertAscStr []


def joinSep (sep : String) : List String → String
  | [] => ""
  | [x] => x
  | x :: y :: rest => x ++ sep ++ joinSep sep (y :: rest)


def splitUnderscoreAux : List Char → List Char → List (List Char)
  | acc, [] => [acc.reverse]
  | acc, c :: rest =>
    if c = '_' then acc.reverse :: splitUnderscoreAux [] rest
    else splitUnderscoreAux (c :: acc) rest


def pySplitUnderscore (s : String) : List String :=
  (splitUnderscoreAux [] s.data).map fun l => ⟨l⟩


def natToStr (n : Nat) : String := Nat.repr n


/-- Python's `repr` of a non-negative float that is an exact multiple of
`1/100` (every rate in the optimizer is the result of `round(x, 2)`):
the integer part, a dot, and the fractional digits with the trailing zero
of a two-digit fraction dropped (`20.0`, `3.75`, `16.5`). -/
def floatRepr2 (x : Frac) : String :=
  let ip : Int := x.floor
  let frac2 : Int := (x * Frac.ofNat 100).floor - 100 * ip
  let d1 : Int := frac2 / 10
  let d2 : Int := frac2 % 10
  if frac2 = 0 then natToStr ip.toNat ++ ".0"
  else if d2 = 0 then natToStr ip.toNat ++ "." ++ natToStr d1.toNat
  else natToStr ip.toNat ++ "." ++ natToStr d1.toNat ++ natToStr d2.toNat


/-! ### Data model (`src/utils/schemas.py`)

Only the fields the optimizer reads are carried.  The pydantic `Literal`
fields become inductive types; free-form `str` fields stay `String`. -/

inductive Tier | High | Mid | Low
deriving DecidableEq


def Tier.str : Tier → String
  | .High => "High"
  | .Mid => "Mid"
  | .Low => "Low"


inductive AdAction | CLICK | IGNORE | REPORT
deriving DecidableEq


inductive Intent | High | Medium | Low | NoIntent
deriving DecidableEq


structure EnrichedPersona where
  uuid : String
  occupation : String
  state : String
  zone : String
  age : Nat
  digital_literacy : Nat
  purchasing_power_tier : Tier
  primary_device : String
deriving DecidableEq


structure AdReaction where
  persona_uuid : String
  ad_id : String
  trust_score : Nat
  relevance_score : Nat
  action : AdAction
  intent_level : Intent
deriving DecidableEq


structure AdPerformance where
  ad_id : String
  total_impressions : Nat
  clicks : Nat
  high_intent_leads : Nat
  click_rate : Frac
  conversion_rate : Frac
  unique_reach : Nat
deriving DecidableEq


structure PortfolioRecommendation where
  ad_id : String
  role : String
  budget_split : Frac
  target_segment : String
  unique_reach : Nat
  expected_conversions : Nat
  reasoning : String
deriving DecidableEq


def defaultPerf : AdPerformance := ⟨"", 0, 0, 0, 0, 0, 0⟩


/-- The result of `identify_specific_segment`: the `segment_name`, the
`dominant_attributes` entries and the summary numbers of the returned
dict.  The `leads == []` branch returns an empty attribute dict; reading
`avg_trust_score` from it with `.get(..., 0)` yields `0`, which the zero
fields reproduce. -/
structure SegmentInfo where
  segment_name : String
  occupation : String
  state : String
  zone : String
  age_group : String
  income_tier : String
  avg_digital_literacy : Frac
  avg_trust_score : Frac
  conc_occupation : Frac
  conc_state : Frac
  conc_zone : Frac
  conc_age : Frac
  conc_income : Frac
  confidence : Frac
  sample_size : Nat
deriving DecidableEq


/-- One `ad_scores[ad_id]` entry of `assign_segment_owners`
(`conversion_rate` already multiplied by 100, as stored there). -/
structure AdScoreRec where
  score : Frac
  trust : Frac
  relevance : Frac
  conversion_rate : Frac
  high_intent_count : Nat
  total_impressions : Nat
deriving DecidableEq


/-- One `segment_ownership[cluster_id]` record. -/
structure SegmentOwnership where
  winning_ad : String
  trust_score : Frac
  relevance_score : Frac
  conversion_rate : Frac
  high_intent_count : Nat
  personas : List EnrichedPersona
  reasoning : String
  all_ad_scores : List (String × Frac × Frac × Frac)
deriving DecidableEq


structure HeatmapData where
  rows : List String
  cols : List String
  matrix : List (List String)
deriving DecidableEq


/-- The dict returned by `optimize_portfolio`; `none` at the
`optimize_portfolio` level models the `ValueError` Python raises when
`max()` is applied to an empty sequence. -/
structure PortfolioResult where
  winning_portfolio : List PortfolioRecommendation
  all_performances : List (String × AdPerformance)
  overlap_matrix : List (String × List (String × Frac))
  audience_segments : List (String × List (String × Nat))
  segment_ownership : List (String × SegmentOwnership)
  wasted_spend_alerts : List String
  clusters_summary : List (String × Nat × String × Frac)
deriving DecidableEq


def meanFrac (l : List Frac) : Frac := sumFrac l / Frac.ofNat l.length


/-- `collections.Counter(...).most_common(1)[0]`, with the
`("Unknown", 0)` default for an empty counter: the first-encountered
value attaining the maximal multiplicity, paired with that multiplicity. -/
def mostCommon (l : List String) : String × Nat :=
  match argmaxFirst (insertOrderDedup l) (fun x => Frac.ofNat (l.count x)) with
  | some x => (x, l.count x)
  | none => ("Unknown", 0)


/-- The value of `{r.persona_uuid: r for r in reactions}` at a key
(later entries overwrite earlier ones). -/
def lastReactionFor (reactions : List AdReaction) (u : String) : Option AdReaction :=
  reactions.reverse.find? (fun r => r.persona_uuid = u)


/-- The value of `{p.uuid: p for p in personas}` at a key. -/
def personaMapGet (personas : List EnrichedPersona) (u : String) : Option EnrichedPersona :=
  personas.reverse.find? (fun p => p.uuid = u)

namespace PortfolioOptimizer


/-- `_categorize_age` (optimizer.py 495-504). -/
def _categorize_age (age : Nat) : String :=
  if age < 25 then "Youth_18-24"
  else if age < 35 then "Young_Adults_25-34"
  else if age < 50 then "Middle_Age_35-49"
  else "Senior_50+"


/-- `_categorize_literacy` (optimizer.py 486-493). -/
def _categorize_literacy (score : Nat) : String :=
  if 8 ≤ score then "High"
  else if 5 ≤ score then "Medium"
  else "Low"


/-- `_categorize_occupation` (optimizer.py 193-212): case-insensitive
substring tests in a fixed priority order. -/
def _categorize_occupation (occupation : String) : String :=
  let occ_lower := strLower occupation
  if strContains occ_lower "export" then "Export_Manager"
  else if strContains occ_lower "import" then "Import_Manager"
  else if strContains occ_lower "freelancer" || strContains occ_lower "freelance" then "Freelancer"
  else if strContains occ_lower "consultant" then "Consultant"
  else if strContains occ_lower "it" || strContains occ_lower "software" ||
          strContains occ_lower "developer" then "IT_Professional"
  else if strContains occ_lower "manager" then "Manager"
  else if strContains occ_lower "business" || strContains occ_lower "entrepreneur" then
    "Business_Owner"
  else "Professional"


/-- `identify_specific_segment` (optimizer.py 18-148). -/
def identify_specific_segment (leads : List EnrichedPersona) (reactions : List AdReaction) :
    SegmentInfo :=
  if leads.isEmpty then ⟨"No Data", "", "", "", "", "", 0, 0, 0, 0, 0, 0, 0, 0, 0⟩
  else
    let states := leads.map (·.state)
    let occupations := leads.map (·.occupation)
    let zones := leads.map (·.zone)
    let age_groups := leads.map (fun p => _categorize_age p.age)
    let literacy_levels := leads.map (·.digital_literacy)
    let income_tiers := leads.map (fun p => p.purchasing_power_tier.str)
    let ts := mostCommon states
    let to_ := mostCommon occupations
    let tz := mostCommon zones
    let ta := mostCommon age_groups
    let tt := mostCommon income_tiers
    let total := leads.length
    let pct := fun (c : Nat) =>
      if 0 < total then Frac.ofNat c / Frac.ofNat total * 100 else 0
    let state_pct := pct ts.2
    let occ_pct := pct to_.2
    let zone_pct := pct tz.2
    let age_pct := pct ta.2
    let tier_pct := pct tt.2
    let avg_literacy := if literacy_levels.isEmpty then 0 else Frac.meanNat literacy_levels
    let avg_trust :=
      if reactions.isEmpty then 0
      else Frac.meanNat
        (leads.filterMap (fun p => (lastReactionFor reactions p.uuid).map (·.trust_score)))
    let segment_parts :=
      (if (40 : Frac).blt age_pct then [strReplace ta.1 "_" " "] else [])
      ++ (if (40 : Frac).blt occ_pct then
            [strReplace (strReplace to_.1 "Manager, " "") " and " "/"] else [])
      ++ (if (50 : Frac).blt state_pct then ["in " ++ ts.1]
          else if (50 : Frac).blt zone_pct then ["(" ++ tz.1 ++ ")"] else [])
      ++ (if (50 : Frac).blt tier_pct ∧ tt.1 ≠ "Mid" then [tt.1 ++ "-Income"] else [])
      ++ (if (8 : Frac).ble avg_literacy then ["High Tech-Savvy"]
          else if (6 : Frac).ble avg_literacy then ["Tech-Comfortable"]
          else if avg_literacy.ble 4 then ["Low Digital Literacy"] else [])
    let segment_name :=
      if segment_parts.isEmpty then to_.1 ++ "s in " ++ tz.1 ++ " Areas"
      else joinSep " " segment_parts
    let confidence := meanFrac [state_pct, occ_pct, zone_pct, age_pct, tier_pct] / 100
    ⟨segment_name, to_.1, ts.1, tz.1, ta.1, tt.1,
     Frac.pyRound avg_literacy 1, Frac.pyRound avg_trust 1,
     Frac.pyRound occ_pct 1, Frac.pyRound state_pct 1, Frac.pyRound zone_pct 1,
     Frac.pyRound age_pct 1, Frac.pyRound tier_pct 1,
     Frac.pyRound confidence 2, total⟩


/-- The cluster key chosen for a persona in
`fragment_audience_into_clusters` (optimizer.py 165-189); the unused
psychographic key of the source is omitted. -/
def clusterKeyOf (p : EnrichedPersona) : String :=
  let geo_income_key := p.zone ++ "_" ++ p.purchasing_power_tier.str
  let age_occ_key := _categorize_age p.age ++ "_" ++ _categorize_occupation p.occupation
  if _categorize_occupation p.occupation ∈
      ["Export_Manager", "Import_Manager", "Freelancer", "Consultant"] then age_occ_key
  else geo_income_key


/-- `fragment_audience_into_clusters` (optimizer.py 150-191): the
`defaultdict(list)` filled by one pass over `personas`, i.e. the keys in
first-occurrence order, each with the personas mapped to it in input
order. -/
def fragment_audience_into_clusters (personas : List EnrichedPersona) :
    List (String × List EnrichedPersona) :=
  (insertOrderDedup (personas.map clusterKeyOf)).map
    (fun k => (k, personas.filter (fun p => clusterKeyOf p = k)))


/-- The `cluster_reactions` list of `assign_segment_owners`
(optimizer.py 252-257): for each persona of the cluster in order, its
reactions (`reaction_lookup` preserves input order) restricted to the
ad. -/
def cluster_reactions_for (personas : List EnrichedPersona) (reactions : List AdReaction)
    (ad_id : String) : List AdReaction :=
  personas.flatMap
    (fun p => reactions.filter (fun r => r.persona_uuid = p.uuid && r.ad_id = ad_id))


/-- One `ad_scores[ad_id]` computation of `assign_segment_owners`
(optimizer.py 250-292).  The `clicks` count of the source is dead and
omitted. -/
def ad_score_for (personas : List EnrichedPersona) (reactions : List AdReaction)
    (ad_id : String) : AdScoreRec :=
  let cluster_reactions := cluster_reactions_for personas reactions ad_id
  if cluster_reactions.isEmpty then ⟨0, 0, 0, 0, 0, 0⟩
  else
    let high_intent_count := cluster_reactions.countP (fun r => r.intent_level = Intent.High)
    let avg_trust := Frac.meanNat (cluster_reactions.map (·.trust_score))
    let avg_relevance := Frac.meanNat (cluster_reactions.map (·.relevance_score))
    let conversion_rate :=
      Frac.ofNat high_intent_count / Frac.ofNat cluster_reactions.length
    let intensity_score := avg_trust * avg_relevance * (conversion_rate * 100)
    let volume_bonus := min high_intent_count 10
    let final_score := intensity_score * (1 + Frac.ofNat volume_bonus / 20)
    ⟨final_score, avg_trust, avg_relevance, conversion_rate * 100,
     high_intent_count, cluster_reactions.length⟩


/-- `_generate_segment_reasoning` (optimizer.py 334-371);
`metrics` carries the unrounded `ad_scores` values. -/
def _generate_segment_reasoning (_cluster_id : String) (personas : List EnrichedPersona)
    (winning_ad : String) (metrics : AdScoreRec) (reactions : List AdReaction) : String :=
  let ad_reactions := reactions.filter (fun r => r.ad_id = winning_ad)
  let segment_info := identify_specific_segment personas ad_reactions
  let trust := metrics.trust
  let conversion := metrics.conversion_rate
  let reasoning_parts :=
    (if (8 : Frac).ble trust then ["High trust signals"] else [])
    ++ (if (70 : Frac).ble conversion then
          [natToStr conversion.floor.toNat ++ "% conversion rate"]
        else if (50 : Frac).ble conversion then
          ["Strong " ++ natToStr conversion.floor.toNat ++ "% conversion"]
        else [])
    ++ (if (8 : Frac).ble segment_info.avg_trust_score then
          ["resonates with this segment's values"] else [])
  if reasoning_parts.isEmpty then "Best performing ad for this segment"
  else joinSep " • " reasoning_parts


/-- One iteration of the cluster loop of `assign_segment_owners`
(optimizer.py 243-330): `none` is the `continue` for an empty cluster,
an empty `ad_scores` dict, or a winning score of exactly `0`. -/
def owner_for (reactions : List AdReaction) (ad_ids : List String)
    (cp : String × List EnrichedPersona) : Option (String × SegmentOwnership) :=
  if cp.2.isEmpty then none
  else
    match argmaxFirst (insertOrderDedup ad_ids)
        (fun ad => (ad_score_for cp.2 reactions ad).score) with
    | none => none
    | some winning_ad =>
      if (ad_score_for cp.2 reactions winning_ad).score.beq 0 then none
      else
        some (cp.1,
          { winning_ad := winning_ad
            trust_score := Frac.pyRound (ad_score_for cp.2 reactions winning_ad).trust 1
            relevance_score :=
              Frac.pyRound (ad_score_for cp.2 reactions winning_ad).relevance 1
            conversion_rate :=
              Frac.pyRound (ad_score_for cp.2 reactions winning_ad).conversion_rate 1
            high_intent_count := (ad_score_for cp.2 reactions winning_ad).high_intent_count
            personas := cp.2
            reasoning := _generate_segment_reasoning cp.1 cp.2 winning_ad
              (ad_score_for cp.2 reactions winning_ad) reactions
            all_ad_scores := (insertOrderDedup ad_ids).map (fun ad =>
              (ad, Frac.pyRound (ad_score_for cp.2 reactions ad).score 1,
               Frac.pyRound (ad_score_for cp.2 reactions ad).trust 1,
               Frac.pyRound (ad_score_for cp.2 reactions ad).conversion_rate 1)) })


/-- `assign_segment_owners` (optimizer.py 214-332).  Clusters are
processed in order; the unused `persona_uuid_to_cluster` map of the
source is omitted. -/
def assign_segment_owners (clusters : List (String × List EnrichedPersona))
    (reactions : List AdReaction) (ad_ids : List String) :
    List (String × SegmentOwnership) :=
  clusters.filterMap (owner_for reactions ad_ids)


/-- `calculate_ad_performance` (optimizer.py 373-415): per-ad counters in
first-occurrence key order.  The `persona_map` local of the source is
built and never read. -/
def calculate_ad_performance (reactions : List AdReaction)
    (personas : List EnrichedPersona) : List (String × AdPerformance) :=
  let _persona_map := personas.map (fun p => (p.uuid, p))
  (insertOrderDedup (reactions.map (·.ad_id))).map (fun ad_id =>
    let rs := reactions.filter (fun r => r.ad_id = ad_id)
    let impressions := rs.length
    let clicks := rs.countP (fun r => r.action = AdAction.CLICK)
    let high := rs.countP (fun r => r.intent_level = Intent.High)
    let reached := insertOrderDedup (rs.map (·.persona_uuid))
    let click_rate :=
      if 0 < impressions then Frac.ofNat clicks / Frac.ofNat impressions else 0
    let conversion_rate :=
      if 0 < impressions then Frac.ofNat high / Frac.ofNat impressions else 0
    (ad_id,
      { ad_id := ad_id
        total_impressions := impressions
        clicks := clicks
        high_intent_leads := high
        click_rate := Frac.pyRound (click_rate * 100) 2
        conversion_rate := Frac.pyRound (conversion_rate * 100) 2
        unique_reach := reached.length }))


/-- The engagement test of `calculate_audience_overlap`,
`identify_audience_segments` and `generate_heatmap_matrix`:
`action == "CLICK" or intent_level in ["High", "Medium"]`. -/
def is_engaged (r : AdReaction) : Bool :=
  r.action = AdAction.CLICK || (r.intent_level = Intent.High || r.intent_level = Intent.Medium)


/-- `calculate_audience_overlap` (optimizer.py 417-449). -/
def calculate_audience_overlap (reactions : List AdReaction) :
    List (String × List (String × Frac)) :=
  let engaged := reactions.filter is_engaged
  let ad_ids := insertOrderDedup (engaged.map (·.ad_id))
  let audience := fun (ad : String) =>
    insertOrderDedup ((engaged.filter (fun r => r.ad_id = ad)).map (·.persona_uuid))
  ad_ids.map (fun ad_a =>
    (ad_a, ad_ids.map (fun ad_b =>
      if ad_a = ad_b then (ad_b, (1 : Frac))
      else
        let audience_a := audience ad_a
        let audience_b := audience ad_b
        if audience_a.length = 0 then (ad_b, (0 : Frac))
        else
          (ad_b, Frac.pyRound
            (Frac.ofNat (audience_a.countP (fun u => u ∈ audience_b)) /
             Frac.ofNat audience_a.length) 3))))


/-- `identify_audience_segments` (optimizer.py 451-484): nested
`defaultdict` counters, updated in reaction order. -/
def identify_audience_segments (reactions : List AdReaction)
    (personas : List EnrichedPersona) : List (String × List (String × Nat)) :=
  reactions.foldl (fun acc reaction =>
    if is_engaged reaction then
      match personaMapGet personas reaction.persona_uuid with
      | none => acc
      | some persona =>
        let inc := fun (m : List (String × Nat)) (key : String) => upsertWith m key (· + 1) 0
        upsertWith acc reaction.ad_id
          (fun segs =>
            inc (inc (inc (inc segs (persona.zone ++ "_" ++ persona.purchasing_power_tier.str))
              ("Digital_" ++ _categorize_literacy persona.digital_literacy))
              (_categorize_age persona.age))
              ("Device_" ++ persona.primary_device))
          []
    else acc) []


/-- The warning string of `detect_clickbait_traps` (optimizer.py 516-520). -/
def trapMsg (ad_id : String) (click_rate conversion_rate : Frac) : String :=
  "Ad " ++ ad_id ++ " has " ++ floatRepr2 click_rate ++ "% click rate but only "
  ++ floatRepr2 conversion_rate
  ++ "% high-intent conversion. This is a 'Clickbait Trap' - generating curiosity clicks without real purchase intent."


/-- `detect_clickbait_traps` (optimizer.py 506-523). -/
def detect_clickbait_traps (performances : List (String × AdPerformance)) : List String :=
  performances.filterMap (fun p =>
    if (15 : Frac).blt p.2.click_rate && p.2.conversion_rate.blt 5 then
      some (trapMsg p.1 p.2.click_rate p.2.conversion_rate)
    else none)


/-- `_determine_ad_role` (optimizer.py 685-736).  The two trust-filtered
reaction lists of the source are dead and omitted; `ownership` carries
the rounded metrics, as stored by `assign_segment_owners`. -/
def _determine_ad_role (_ad_id : String) (ownership : SegmentOwnership)
    (segment_info : SegmentInfo) (performance : AdPerformance)
    (_reactions : List AdReaction) (_personas : List EnrichedPersona) : String :=
  let trust_score := ownership.trust_score
  let conversion_rate := ownership.conversion_rate
  let segment_name := segment_info.segment_name
  if (8 : Frac).ble trust_score && (70 : Frac).ble conversion_rate then
    if strContains segment_name "Senior" || strContains segment_name "Age 45+" ||
        strContains segment_name "50+" then "The Trust Magnet"
    else "The Converter"
  else if strContains segment_name "Young" || strContains segment_name "25-34" ||
      strContains segment_name "Youth" then
    if (60 : Frac).ble conversion_rate then "The Growth Hook" else "The Youth Engager"
  else if strContains segment_name "Export" || strContains segment_name "Import" ||
      strContains segment_name "Manager" then
    if (7 : Frac).ble trust_score then "The Professional's Choice" else "The B2B Play"
  else if strContains segment_name "Freelancer" || strContains segment_name "Consultant" then
    "The Hustle Enabler"
  else if (70 : Frac).ble conversion_rate then "The Converter"
  else if (8 : Frac).ble trust_score then "The Trust Builder"
  else if (80 : Frac).ble performance.click_rate && conversion_rate.blt 50 then
    "The Curiosity Driver"
  else "The Catch-All"


/-- The `segment_values` dict of `optimize_portfolio` (optimizer.py
556-563): per owned cluster, `high_intent_count * trust_score *
relevance_score / 10` over the rounded ownership metrics. -/
def seg_value_list (segment_ownership : List (String × SegmentOwnership)) :
    List (String × Frac) :=
  segment_ownership.map (fun co =>
    (co.1, Frac.ofNat co.2.high_intent_count * co.2.trust_score * co.2.relevance_score / 10))


/-- `total_value` (optimizer.py 565): `sum(...) if segment_values else 1`. -/
def total_value_of (segment_values : List (String × Frac)) : Frac :=
  if segment_values.isEmpty then 1 else sumFrac (segment_values.map (·.2))


/-- `segment_values.get(cluster_id, 0)` (optimizer.py 573). -/
def seg_value_get (segment_values : List (String × Frac)) (cid : String) : Frac :=
  (alookup segment_values cid).getD 0


/-- `ad_to_segments[ad_id]` (optimizer.py 567-574): the segments whose
winning ad is `ad_id`, in ownership order, each with its value. -/
def owned_segments_of (segment_ownership : List (String × SegmentOwnership))
    (segment_values : List (String × Frac)) (ad_id : String) :
    List (String × SegmentOwnership × Frac) :=
  (segment_ownership.filter (fun co => co.2.winning_ad = ad_id)).map
    (fun co => (co.1, co.2, seg_value_get segment_values co.1))


/-- `ad_budget_allocation[ad_id]["budget_pct"]` before normalisation
(optimizer.py 577-587). -/
def alloc_pct_of (segment_ownership : List (String × SegmentOwnership))
    (segment_values : List (String × Frac)) (ad_id : String) : Frac :=
  let ad_total_value :=
    sumFrac ((owned_segments_of segment_ownership segment_values ad_id).map (fun s => s.2.2))
  if (0 : Frac).blt (total_value_of segment_values) then
    ad_total_value / total_value_of segment_values * 100
  else 0


/-- One iteration of the recommendation loop (optimizer.py 618-663);
`pct2` is the post-normalisation allocation.  `none` is the `continue`
for an ad owning no segments. -/
def build_recommendation (reactions : List AdReaction)
    (performances : List (String × AdPerformance))
    (segment_ownership : List (String × SegmentOwnership))
    (segment_values : List (String × Frac)) (pct2 : String → Frac) (ad_id : String) :
    Option PortfolioRecommendation :=
  let owned_segments := owned_segments_of segment_ownership segment_values ad_id
  match argmaxFirst owned_segments (fun s => s.2.2) with
  | none => none
  | some primary =>
    let ownership := primary.2.1
    let personas_in_segment := ownership.personas
    let ad_reactions := reactions.filter (fun r => r.ad_id = ad_id)
    let segment_info := identify_specific_segment personas_in_segment ad_reactions
    let perf := (alookup performances ad_id).getD defaultPerf
    some
      { ad_id := ad_id
        role := _determine_ad_role ad_id ownership segment_info perf ad_reactions
          personas_in_segment
        budget_split := Frac.pyRound (pct2 ad_id) 1
        target_segment := segment_info.segment_name
        unique_reach := perf.unique_reach
        expected_conversions := perf.high_intent_leads
        reasoning := ownership.reasoning }


/-- Assembly of the result dict (optimizer.py 607-683) from a selected ad
list and its pre-normalisation budgets `pct1`: normalise to 100 when the
selected total is positive, build one recommendation per selected ad that
owns segments, and sort by descending budget split.  Python renormalises
only the selected ads' dict entries in place; `pct2` is read for selected
ads only, so the membership test is omitted. -/
def mk_result (reactions : List AdReaction)
    (performances : List (String × AdPerformance))
    (overlaps : List (String × List (String × Frac)))
    (old_segments : List (String × List (String × Nat)))
    (clickbait_alerts : List String)
    (segment_ownership : List (String × SegmentOwnership))
    (segment_values : List (String × Frac))
    (selected : List String) (pct1 : String → Frac) : PortfolioResult :=
  let total_allocated := sumFrac (selected.map pct1)
  let pct2 := fun (ad : String) =>
    if (0 : Frac).blt total_allocated then pct1 ad / total_allocated * 100 else pct1 ad
  let recommendations := selected.filterMap
    (build_recommendation reactions performances segment_ownership segment_values pct2)
  { winning_portfolio := sortDescBy (·.budget_split) recommendations
    all_performances := performances
    overlap_matrix := overlaps
    audience_segments := old_segments
    segment_ownership := segment_ownership
    wasted_spend_alerts := clickbait_alerts
    clusters_summary := segment_ownership.map (fun co =>
      (co.1, co.2.personas.length, co.2.winning_ad, seg_value_get segment_values co.1)) }


/-- `optimize_portfolio` (optimizer.py 525-683).  Returns `none` exactly
when the Python code raises: `max(performances.keys(), ...)` on the
fallback path with an empty `performances` dict. -/
def optimize_portfolio (reactions : List AdReaction) (personas : List EnrichedPersona)
    (max_ads : Nat) : Option PortfolioResult :=
  let performances := calculate_ad_performance reactions personas
  let overlaps := calculate_audience_overlap reactions
  let old_segments := identify_audience_segments reactions personas
  let clickbait_alerts := detect_clickbait_traps performances
  let clusters := fragment_audience_into_clusters personas
  let ad_ids := performances.map (·.1)
  let segment_ownership := assign_segment_owners clusters reactions ad_ids
  let segment_values := seg_value_list segment_ownership
  let alloc_pct := alloc_pct_of segment_ownership segment_values
  let selected := (sortDescBy alloc_pct
    (ad_ids.filter (fun ad => (5 : Frac).ble (alloc_pct ad)))).take max_ads
  if selected.isEmpty then
    match argmaxFirst ad_ids
        (fun ad => Frac.ofNat ((alookup performances ad).getD defaultPerf).high_intent_leads) with
    | none => none
    | some best =>
      some (mk_result reactions performances overlaps old_segments clickbait_alerts
        segment_ownership segment_values [best]
        (fun ad => if ad = best then (100 : Frac) else alloc_pct ad))
  else
    some (mk_result reactions performances overlaps old_segments clickbait_alerts
      segment_ownership segment_values selected alloc_pct)


def whiteCircle : String := ⟨[Char.ofNat 0x26AA]⟩


def greenCircle : String := ⟨[Char.ofNat 0x1F7E2]⟩


def yellowCircle : String := ⟨[Char.ofNat 0x1F7E1]⟩


def orangeCircle : String := ⟨[Char.ofNat 0x1F7E0]⟩


def redCircle : String := ⟨[Char.ofNat 0x1F534]⟩


/-- `generate_heatmap_matrix` (optimizer.py 738-812). -/
def generate_heatmap_matrix (reactions : List AdReaction)
    (personas : List EnrichedPersona) (ad_ids : List String) : HeatmapData :=
  let discovered := insertOrderDedup
    ((reactions.filter is_engaged).filterMap (fun r =>
      (personaMapGet personas r.persona_uuid).map
        (fun p => p.zone ++ "_" ++ p.purchasing_power_tier.str)))
  let segments := sortStrings discovered
  if segments.isEmpty then
    { rows := ["No_Data"], cols := ad_ids, matrix := [ad_ids.map (fun _ => whiteCircle)] }
  else
    { rows := segments
      cols := ad_ids
      matrix := segments.map (fun segment =>
        ad_ids.map (fun ad_id =>
          let segment_parts := pySplitUnderscore segment
          if segment_parts.length < 2 then whiteCircle
          else
            let zone := (segment_parts.get? 0).getD ""
            let tier := (segment_parts.get? 1).getD ""
            let matching := reactions.filter (fun r =>
              r.ad_id = ad_id &&
              match personaMapGet personas r.persona_uuid with
              | some p => p.zone = zone && p.purchasing_power_tier.str = tier
              | none => false)
            if matching.isEmpty then whiteCircle
            else
              let high := matching.countP (fun r => r.intent_level = Intent.High)
              let conv := Frac.ofNat high / Frac.ofNat matching.length
              if ((3 : Frac) / 10).ble conv then greenCircle
              else if ((15 : Frac) / 100).ble conv then yellowCircle
              else if ((5 : Frac) / 100).ble conv then orangeCircle
              else redCircle)) }

end PortfolioOptimizer


def wP1 : EnrichedPersona := ⟨"p1", "clerk", "Kerala", "Urban", 30, 7, Tier.High, "Android"⟩


def wR1 : AdReaction := ⟨"p1", "ad_1", 10, 10, AdAction.CLICK, Intent.High⟩


/-- Rounding to the nearest integer with ties to even, stated over `ℚ`
(the specification-level reading of Python's `round`). -/
def roundHalfEvenQ (q : ℚ) : ℤ :=
  if q - ⌊q⌋ < 1 / 2 then ⌊q⌋
  else if 1 / 2 < q - ⌊q⌋ then ⌊q⌋ + 1
  else if ⌊q⌋ % 2 = 0 then ⌊q⌋ else ⌊q⌋ + 1


/-- Python's `round(q, d)` stated over `ℚ`. -/
def pyRoundQ (q : ℚ) (d : Nat) : ℚ := (roundHalfEvenQ (q * 10 ^ d) : ℚ) / 10 ^ d


/-- The engaged audience of an ad: the distinct persona uuids among its
reactions that clicked or showed High or Medium intent. -/
def engagedAudience (reactions : List AdReaction) (ad : String) : Finset String :=
  (((reactions.filter PortfolioOptimizer.is_engaged).filter
      (fun r => r.ad_id = ad)).map (·.persona_uuid)).toFinset


/-- The spec's clickbait scenario: 100 impressions of one ad, 20 clicks,
3 high-intent leads (20 percent click rate, 3 percent conversion). -/
def c6Reactions : List AdReaction :=
  List.replicate 3 ⟨"p", "ad_x", 5, 5, AdAction.CLICK, Intent.High⟩
  ++ List.replicate 17 ⟨"p", "ad_x", 5, 5, AdAction.CLICK, Intent.Low⟩
  ++ List.replicate 80 ⟨"p", "ad_x", 5, 5, AdAction.IGNORE, Intent.Low⟩


def c6Perfs : List (String × AdPerformance) :=
  PortfolioOptimizer.calculate_ad_performance c6Reactions []


def c6Perf : AdPerformance := (alookup c6Perfs "ad_x").getD defaultPerf


/-- Reactions exercising the overlap matrix: two ads with overlapping
engaged audiences. -/
def c3Reactions : List AdReaction :=
  [⟨"p1", "adA", 5, 5, AdAction.CLICK, Intent.Low⟩,
   ⟨"p1", "adB", 0, 0, AdAction.IGNORE, Intent.Medium⟩,
   ⟨"p2", "adA", 1, 1, AdAction.CLICK, Intent.Low⟩]


def c3Row : List (String × Frac) :=
  (alookup (PortfolioOptimizer.calculate_audience_overlap c3Reactions) "adA").getD []


def c3V : Frac := (alookup c3Row "adB").getD 0


def c4Clusters : List (String × List EnrichedPersona) := [("c1", [wP1])]


def c10O : SegmentOwnership :=
  (alookup (PortfolioOptimizer.assign_segment_owners c4Clusters [wR1] ["ad_1"]) "c1").getD
    ⟨"", 0, 0, 0, 0, [], "", []⟩


def emptyResult : PortfolioResult := ⟨[], [], [], [], [], [], []⟩


def c2Res : PortfolioResult :=
  (PortfolioOptimizer.optimize_portfolio [wR1] [wP1] 3).getD emptyResult


/-- Six personas in six distinct geographic clusters, each reacting with
High intent to its own ad: six ads each earn a 50/3 percent share. -/
def c2xP : List EnrichedPersona :=
  [⟨"p1", "clerk", "S", "Z1", 30, 5, Tier.Mid, "Android"⟩,
   ⟨"p2", "clerk", "S", "Z2", 30, 5, Tier.Mid, "Android"⟩,
   ⟨"p3", "clerk", "S", "Z3", 30, 5, Tier.Mid, "Android"⟩,
   ⟨"p4", "clerk", "S", "Z4", 30, 5, Tier.Mid, "Android"⟩,
   ⟨"p5", "clerk", "S", "Z5", 30, 5, Tier.Mid, "Android"⟩,
   ⟨"p6", "clerk", "S", "Z6", 30, 5, Tier.Mid, "Android"⟩]


def c2xR : List AdReaction :=
  [⟨"p1", "ad_1", 10, 10, AdAction.CLICK, Intent.High⟩,
   ⟨"p2", "ad_2", 10, 10, AdAction.CLICK, Intent.High⟩,
   ⟨"p3", "ad_3", 10, 10, AdAction.CLICK, Intent.High⟩,
   ⟨"p4", "ad_4", 10, 10, AdAction.CLICK, Intent.High⟩,
   ⟨"p5", "ad_5", 10, 10, AdAction.CLICK, Intent.High⟩,
   ⟨"p6", "ad_6", 10, 10, AdAction.CLICK, Intent.High⟩]


def c2xRes : PortfolioResult :=
  (PortfolioOptimizer.optimize_portfolio c2xR c2xP 6).getD emptyResult


/-- The cell classification enum of the heatmap specification; the source
emits the corresponding circle emoji. -/
inductive HeatCell | strong | medium | weak | poor | no_data
deriving DecidableEq


def HeatCell.emoji : HeatCell → String
  | .strong => PortfolioOptimizer.greenCircle
  | .medium => PortfolioOptimizer.yellowCircle
  | .weak => PortfolioOptimizer.orangeCircle
  | .poor => PortfolioOptimizer.redCircle
  | .no_data => PortfolioOptimizer.whiteCircle


/-- The Zone-by-IncomeTier pairs discovered from engaged reactions whose
persona is known, in first-occurrence order (specification-level view of
the heatmap's discovered segments, as pairs rather than joined labels). -/
def discoveredPairs (reactions : List AdReaction) (personas : List EnrichedPersona) :
    List (String × Tier) :=
  insertOrderDedup
    ((reactions.filter PortfolioOptimizer.is_engaged).filterMap (fun r =>
      (personaMapGet personas r.persona_uuid).map
        (fun p => (p.zone, p.purchasing_power_tier))))


def pairLabel (zt : String × Tier) : String := zt.1 ++ "_" ++ zt.2.str


def insertPairAsc (x : String × Tier) : List (String × Tier) → List (String × Tier)
  | [] => [x]
  | y :: ys => if strLt (pairLabel x) (pairLabel y) then x :: y :: ys else y :: insertPairAsc x ys


def sortPairsByLabel (l : List (String × Tier)) : List (String × Tier) :=
  l.foldr insertPairAsc []


/-- Specification-level heatmap cell for one Zone-by-IncomeTier segment
and one ad: `no_data` without matching reactions, otherwise the
high-intent conversion rate against the 30/15/5 percent thresholds. -/
def specCellEnum (reactions : List AdReaction) (personas : List EnrichedPersona)
    (zone : String) (tier : Tier) (ad_id : String) : HeatCell :=
  let matching := reactions.filter (fun r =>
    r.ad_id = ad_id &&
    match personaMapGet personas r.persona_uuid with
    | some p => p.zone = zone && p.purchasing_power_tier = tier
    | none => false)
  if matching.isEmpty then .no_data
  else
    let conv := Frac.ofNat (matching.countP (fun r => r.intent_level = Intent.High))
      / Frac.ofNat matching.length
    if ((3 : Frac) / 10).ble conv then .strong
    else if ((15 : Frac) / 100).ble conv then .medium
    else if ((5 : Frac) / 100).ble conv then .weak
    else .poor

/-! ### Theorems -/

namespace Frac


theorem den_ne_zero (a : Frac) : (a.den : ℚ) ≠ 0 := by
  exact_mod_cast Nat.pos_iff_ne_zero.mp a.den_pos


@[simp] theorem toQ_ofNat (n : Nat) : toQ (ofNat n) = n := by
  simp [toQ, ofNat]


@[simp] theorem toQ_ofInt (n : Int) : toQ (ofInt n) = n := by
  simp [toQ, ofInt]


@[simp] theorem toQ_add (a b : Frac) : toQ (a + b) = toQ a + toQ b := by
  show toQ (add a b) = _
  unfold toQ add
  have ha := den_ne_zero a
  have hb := den_ne_zero b
  push_cast
  field_simp
  try ring


@[simp] theorem toQ_sub (a b : Frac) : toQ (a - b) = toQ a - toQ b := by
  show toQ (sub a b) = _
  unfold toQ sub
  have ha := den_ne_zero a
  have hb := den_ne_zero b
  push_cast
  field_simp
  try ring


@[simp] theorem toQ_mul (a b : Frac) : toQ (a * b) = toQ a * toQ b := by
  show toQ (mul a b) = _
  unfold toQ mul
  have ha := den_ne_zero a
  have hb := den_ne_zero b
  push_cast
  field_simp
  try ring


@[simp] theorem toQ_div (a b : Frac) : toQ (a / b) = toQ a / toQ b := by
  show toQ (div a b) = _
  unfold toQ div
  by_cases h : b.num = 0
  · simp [h, toQ]
  · simp only [h, dite_false]
    have ha := den_ne_zero a
    have hb := den_ne_zero b
    have hnb : (b.num : ℚ) ≠ 0 := by exact_mod_cast h
    rcases Int.lt_or_lt_of_ne h with hneg | hpos
    · have hs : b.num.sign = -1 := Int.sign_eq_neg_one_of_neg hneg
      have habs : (b.num.natAbs : ℚ) = -(b.num : ℚ) := by
        rw [Int.cast_natAbs, abs_of_neg hneg]
        push_cast
        ring
      rw [hs]
      push_cast
      rw [habs]
      field_simp
      try ring
    · have hs : b.num.sign = 1 := Int.sign_eq_one_of_pos hpos
      have habs : (b.num.natAbs : ℚ) = (b.num : ℚ) := by
        rw [Int.cast_natAbs, abs_of_pos hpos]
      rw [hs]
      push_cast
      rw [habs]
      field_simp
      try ring


@[simp] theorem toQ_instOfNat (n : Nat) :
    Frac.toQ (no_index (OfNat.ofNat n)) = (n : ℚ) := by
  show Frac.toQ (Frac.ofNat n) = _
  rw [toQ_ofNat]


theorem toQ_ble (a b : Frac) : ble a b = true ↔ toQ a ≤ toQ b := by
  unfold ble toQ
  have ha : (0 : ℚ) < a.den := by exact_mod_cast a.den_pos
  have hb : (0 : ℚ) < b.den := by exact_mod_cast b.den_pos
  rw [div_le_div_iff₀ ha hb, decide_eq_true_eq]
  constructor
  · intro h; exact_mod_cast h
  · intro h; exact_mod_cast h


theorem toQ_blt (a b : Frac) : blt a b = true ↔ toQ a < toQ b := by
  unfold blt toQ
  have ha : (0 : ℚ) < a.den := by exact_mod_cast a.den_pos
  have hb : (0 : ℚ) < b.den := by exact_mod_cast b.den_pos
  rw [div_lt_div_iff₀ ha hb, decide_eq_true_eq]
  constructor
  · intro h; exact_mod_cast h
  · intro h; exact_mod_cast h


theorem toQ_beq (a b : Frac) : beq a b = true ↔ toQ a = toQ b := by
  unfold beq toQ
  have ha := den_ne_zero a
  have hb := den_ne_zero b
  rw [div_eq_div_iff ha hb, decide_eq_true_eq]
  constructor
  · intro h; exact_mod_cast h
  · intro h; exact_mod_cast h


theorem floor_toQ (a : Frac) : (floor a : ℚ) = ⌊toQ a⌋ := by
  unfold floor toQ
  have hpos : (0 : ℤ) < (a.den : ℤ) := by exact_mod_cast a.den_pos
  have hne : (a.den : ℤ) ≠ 0 := ne_of_gt hpos
  have hdecomp := Int.ediv_add_emod a.num (a.den : ℤ)
  have hr0 : 0 ≤ a.num % (a.den : ℤ) := Int.emod_nonneg a.num hne
  have hrlt : a.num % (a.den : ℤ) < (a.den : ℤ) := Int.emod_lt_of_pos a.num hpos
  have hfl : ⌊(a.num : ℚ) / (a.den : ℚ)⌋ = a.num / (a.den : ℤ) := by
    rw [Int.floor_eq_iff]
    have hdq : (0 : ℚ) < (a.den : ℚ) := by exact_mod_cast a.den_pos
    constructor
    · rw [le_div_iff₀ hdq]
      have h1 : (a.den : ℤ) * (a.num / (a.den : ℤ)) ≤ a.num := by omega
      calc ((a.num / (a.den : ℤ) : ℤ) : ℚ) * (a.den : ℚ)
          = (((a.den : ℤ) * (a.num / (a.den : ℤ)) : ℤ) : ℚ) := by push_cast; ring
        _ ≤ (a.num : ℚ) := by exact_mod_cast h1
    · rw [div_lt_iff₀ hdq]
      have h2 : a.num < (a.den : ℤ) * (a.num / (a.den : ℤ)) + (a.den : ℤ) := by omega
      calc (a.num : ℚ) < (((a.den : ℤ) * (a.num / (a.den : ℤ)) + (a.den : ℤ) : ℤ) : ℚ) := by
            exact_mod_cast h2
        _ = ((a.num / (a.den : ℤ) : ℤ) + 1 : ℚ) * (a.den : ℚ) := by push_cast; ring
  rw [hfl]


theorem sub_floor_nonneg (x : Frac) : (0 : ℚ) ≤ toQ (x - ofInt x.floor) := by
  rw [toQ_sub, toQ_ofInt, floor_toQ]
  have := Int.floor_le (toQ x)
  linarith


theorem sub_floor_lt_one (x : Frac) : toQ (x - ofInt x.floor) < 1 := by
  rw [toQ_sub, toQ_ofInt, floor_toQ]
  have := Int.lt_floor_add_one (toQ x)
  linarith


/-- The integer rounding differs from the value by at most one half. -/
theorem abs_rnd_sub_le (x : Frac) : |((rnd x : ℤ) : ℚ) - toQ x| ≤ 1 / 2 := by
  unfold rnd
  have h0 := sub_floor_nonneg x
  have h1 := sub_floor_lt_one x
  have hfl : ((x.floor : ℤ) : ℚ) ≤ toQ x := by rw [floor_toQ]; exact Int.floor_le _
  have hfl1 : toQ x < ((x.floor : ℤ) : ℚ) + 1 := by rw [floor_toQ]; exact Int.lt_floor_add_one _
  have hr : toQ (x - ofInt x.floor) = toQ x - ((x.floor : ℤ) : ℚ) := by
    rw [toQ_sub, toQ_ofInt]
  have hhalf : toQ half = 1 / 2 := by
    unfold toQ half
    norm_num
  by_cases hlt : (x - ofInt x.floor).blt half = true
  · rw [if_pos hlt]
    rw [toQ_blt, hr, hhalf] at hlt
    rw [abs_le]
    constructor <;> linarith
  · rw [if_neg hlt]
    rw [toQ_blt, hr, hhalf] at hlt
    push_neg at hlt
    by_cases hgt : half.blt (x - ofInt x.floor) = true
    · rw [if_pos hgt]
      rw [toQ_blt, hr, hhalf] at hgt
      rw [abs_le]
      constructor <;> [push_cast; push_cast] <;> linarith
    · rw [if_neg hgt]
      rw [toQ_blt, hr, hhalf] at hgt
      push_neg at hgt
      have heq : toQ x - ((x.floor : ℤ) : ℚ) = 1 / 2 := le_antisymm hgt hlt
      by_cases hev : x.floor % 2 = 0
      · rw [if_pos hev, abs_le]
        constructor <;> linarith
      · rw [if_neg hev, abs_le]
        constructor <;> [push_cast; push_cast] <;> linarith


theorem rnd_nonneg (x : Frac) (hx : 0 ≤ toQ x) : 0 ≤ rnd x := by
  have hfloor : (0 : ℤ) ≤ x.floor ∨ x.floor = x.floor := Or.inr rfl
  unfold rnd
  have hf : (0 : ℤ) ≤ x.floor ∨ 0 ≤ toQ x := Or.inr hx
  have hfl : (0 : ℚ) ≤ ⌊toQ x⌋ + 1 := by
    have := Int.lt_floor_add_one (toQ x)
    linarith
  have hf0 : (0 : ℤ) ≤ x.floor + 1 := by
    have h := floor_toQ x
    have : (0 : ℚ) ≤ ((x.floor : ℤ) : ℚ) + 1 := by rw [h]; linarith [hfl]
    exact_mod_cast this
  by_cases h05 : (0 : ℚ) ≤ ((x.floor : ℤ) : ℚ)
  · have hge : (0 : ℤ) ≤ x.floor := by exact_mod_cast h05
    split <;> omega
  · push_neg at h05
    have hneg : x.floor ≤ -1 := by
      have : x.floor < 0 := by exact_mod_cast h05
      omega
    have habs : x.floor = -1 := by omega
    have hval : toQ x - ((x.floor : ℤ) : ℚ) ≥ 1 := by
      rw [habs]; push_cast; linarith
    have := sub_floor_lt_one x
    rw [toQ_sub, toQ_ofInt] at this
    linarith


/-- `pyRound` moves a value by at most half a unit in the last place. -/
theorem abs_pyRound_sub_le (x : Frac) (d : Nat) :
    |toQ (pyRound x d) - toQ x| ≤ 1 / (2 * 10 ^ d) := by
  unfold pyRound toQ
  have hp : ((10 ^ d : Nat) : ℚ) = (10 : ℚ) ^ d := by push_cast; ring
  have hppos : (0 : ℚ) < (10 : ℚ) ^ d := by positivity
  have hkey := abs_rnd_sub_le (x * Frac.ofNat (10 ^ d))
  have hval : toQ (x * Frac.ofNat (10 ^ d)) = toQ x * (10 : ℚ) ^ d := by
    rw [toQ_mul, toQ_ofNat, hp]
  rw [hval] at hkey
  show |((rnd (x * Frac.ofNat (10 ^ d)) : ℤ) : ℚ) / ((10 ^ d : Nat) : ℚ) - toQ x| ≤ _
  rw [hp]
  have : ((rnd (x * Frac.ofNat (10 ^ d)) : ℤ) : ℚ) / (10 : ℚ) ^ d - toQ x
      = (((rnd (x * Frac.ofNat (10 ^ d)) : ℤ) : ℚ) - toQ x * (10 : ℚ) ^ d) / (10 : ℚ) ^ d := by
    field_simp
    try ring
  rw [this, abs_div, abs_of_pos hppos, div_le_div_iff₀ hppos (by positivity)]
  calc |((rnd (x * Frac.ofNat (10 ^ d)) : ℤ) : ℚ) - toQ x * (10 : ℚ) ^ d| * (2 * 10 ^ d)
      ≤ (1 / 2) * (2 * 10 ^ d) := by
        apply mul_le_mul_of_nonneg_right hkey
        positivity
    _ = 1 * 10 ^ d := by ring


theorem pyRound_nonneg (x : Frac) (d : Nat) (hx : 0 ≤ toQ x) : 0 ≤ toQ (pyRound x d) := by
  unfold pyRound toQ
  have hnum : 0 ≤ rnd (x * Frac.ofNat (10 ^ d)) := by
    apply rnd_nonneg
    rw [toQ_mul, toQ_ofNat]
    positivity
  have : (0 : ℚ) ≤ ((rnd (x * Frac.ofNat (10 ^ d)) : ℤ) : ℚ) := by exact_mod_cast hnum
  positivity


theorem meanNat_nonneg (l : List Nat) : 0 ≤ toQ (meanNat l) := by
  unfold meanNat
  rw [toQ_div, toQ_ofNat, toQ_ofNat]
  positivity


theorem meanNat_pos_iff (l : List Nat) (hne : l ≠ []) :
    0 < toQ (meanNat l) ↔ 0 < l.sum := by
  unfold meanNat
  rw [toQ_div, toQ_ofNat, toQ_ofNat]
  have hlen : (0 : ℚ) < l.length := by
    have : 0 < l.length := List.length_pos.mpr hne
    exact_mod_cast this
  constructor
  · intro h
    by_contra hs
    push_neg at hs
    interval_cases hsum : l.sum
    simp [hsum] at h
  · intro h
    apply div_pos _ hlen
    exact_mod_cast h

end Frac


theorem insertDescBy_perm {α : Type} (key : α → Frac) (x : α) (l : List α) :
    List.Perm (insertDescBy key x l) (x :: l) := by
  induction l with
  | nil => simp [insertDescBy]
  | cons y ys ih =>
    unfold insertDescBy
    by_cases h : (key y).ble (key x) = true
    · rw [if_pos h]
    · rw [if_neg h]
      exact (List.Perm.cons y ih).trans (List.Perm.swap x y ys)


theorem sortDescBy_perm {α : Type} (key : α → Frac) (l : List α) :
    List.Perm (sortDescBy key l) l := by
  induction l with
  | nil => simp [sortDescBy]
  | cons y ys ih =>
    unfold sortDescBy
    exact (insertDescBy_perm key y _).trans (List.Perm.cons y ih)


/-! ### General lemmas about the helpers -/

theorem insertOrderDedup_aux_mem {α : Type} [DecidableEq α] (l acc : List α) (x : α) :
    x ∈ l.foldl (fun acc x => if x ∈ acc then acc else acc ++ [x]) acc
      ↔ x ∈ acc ∨ x ∈ l := by
  induction l generalizing acc with
  | nil => simp
  | cons y ys ih =>
    simp only [List.foldl_cons]
    by_cases h : y ∈ acc
    · rw [if_pos h, ih]
      constructor
      · rintro (hx | hx)
        · exact Or.inl hx
        · exact Or.inr (List.mem_cons_of_mem y hx)
      · rintro (hx | hx)
        · exact Or.inl hx
        · rcases List.mem_cons.mp hx with rfl | hx
          · exact Or.inl h
          · exact Or.inr hx
    · rw [if_neg h, ih]
      simp only [List.mem_append, List.mem_singleton, List.mem_cons]
      tauto


theorem insertOrderDedup_mem {α : Type} [DecidableEq α] (l : List α) (x : α) :
    x ∈ insertOrderDedup l ↔ x ∈ l := by
  unfold insertOrderDedup
  rw [insertOrderDedup_aux_mem]
  simp


theorem insertOrderDedup_aux_nodup {α : Type} [DecidableEq α] (l acc : List α)
    (hacc : acc.Nodup) :
    (l.foldl (fun acc x => if x ∈ acc then acc else acc ++ [x]) acc).Nodup := by
  induction l generalizing acc with
  | nil => simpa
  | cons y ys ih =>
    simp only [List.foldl_cons]
    by_cases h : y ∈ acc
    · rw [if_pos h]
      exact ih acc hacc
    · rw [if_neg h]
      refine ih _ ?_
      rw [List.nodup_append]
      exact ⟨hacc, List.nodup_singleton y, by simpa using fun hy => h hy⟩


theorem insertOrderDedup_nodup {α : Type} [DecidableEq α] (l : List α) :
    (insertOrderDedup l).Nodup :=
  insertOrderDedup_aux_nodup l [] List.nodup_nil


theorem sumFrac_aux_toQ (l : List Frac) (a : Frac) :
    Frac.toQ (l.foldl (· + ·) a) = Frac.toQ a + (l.map Frac.toQ).sum := by
  induction l generalizing a with
  | nil => simp
  | cons y ys ih =>
    simp only [List.foldl_cons, List.map_cons, List.sum_cons]
    rw [ih, Frac.toQ_add]
    ring


theorem toQ_sumFrac (l : List Frac) :
    Frac.toQ (sumFrac l) = (l.map Frac.toQ).sum := by
  unfold sumFrac
  rw [sumFrac_aux_toQ, Frac.toQ_instOfNat]
  norm_num


theorem argmaxFirst_aux_spec {α : Type} (f : α → Frac) (l : List α) (b c : α)
    (h : l.foldl
      (fun acc x =>
        match acc with
        | none => some x
        | some b => if (f b).blt (f x) then some x else some b)
      (some b) = some c) :
    (c = b ∨ c ∈ l) ∧ Frac.toQ (f b) ≤ Frac.toQ (f c) ∧
      ∀ y ∈ l, Frac.toQ (f y) ≤ Frac.toQ (f c) := by
  induction l generalizing b with
  | nil =>
    simp only [List.foldl_nil, Option.some_inj] at h
    exact ⟨Or.inl h.symm, by rw [h], by simp⟩
  | cons y ys ih =>
    simp only [List.foldl_cons] at h
    by_cases hby : (f b).blt (f y) = true
    · rw [if_pos hby] at h
      have hlt := (Frac.toQ_blt (f b) (f y)).mp hby
      obtain ⟨hc, hyc, hall⟩ := ih y h
      refine ⟨?_, by linarith, ?_⟩
      · rcases hc with rfl | hc
        · exact Or.inr (List.mem_cons_self _ _)
        · exact Or.inr (List.mem_cons_of_mem y hc)
      · intro z hz
        rcases List.mem_cons.mp hz with rfl | hz
        · exact hyc
        · exact hall z hz
    · rw [if_neg hby] at h
      have hle : Frac.toQ (f y) ≤ Frac.toQ (f b) := by
        by_contra hcon
        push_neg at hcon
        exact hby ((Frac.toQ_blt (f b) (f y)).mpr hcon)
      obtain ⟨hc, hbc, hall⟩ := ih b h
      refine ⟨?_, hbc, ?_⟩
      · rcases hc with rfl | hc
        · exact Or.inl rfl
        · exact Or.inr (List.mem_cons_of_mem y hc)
      · intro z hz
        rcases List.mem_cons.mp hz with rfl | hz
        · linarith
        · exact hall z hz


theorem argmaxFirst_spec {α : Type} (l : List α) (f : α → Frac) (c : α)
    (h : argmaxFirst l f = some c) :
    c ∈ l ∧ ∀ y ∈ l, Frac.toQ (f y) ≤ Frac.toQ (f c) := by
  unfold argmaxFirst at h
  cases l with
  | nil => simp at h
  | cons y ys =>
    simp only [List.foldl_cons] at h
    obtain ⟨hc, hyc, hall⟩ := argmaxFirst_aux_spec f ys y c h
    refine ⟨?_, ?_⟩
    · rcases hc with rfl | hc
      · exact List.mem_cons_self _ _
      · exact List.mem_cons_of_mem y hc
    · intro z hz
      rcases List.mem_cons.mp hz with rfl | hz
      · exact hyc
      · exact hall z hz


theorem argmaxFirst_aux_isSome {α : Type} (f : α → Frac) (l : List α) (b : α) :
    (l.foldl
      (fun acc x =>
        match acc with
        | none => some x
        | some b => if (f b).blt (f x) then some x else some b)
      (some b)).isSome = true := by
  induction l generalizing b with
  | nil => rfl
  | cons y ys ih =>
    simp only [List.foldl_cons]
    by_cases hby : (f b).blt (f y) = true
    · rw [if_pos hby]; exact ih y
    · rw [if_neg hby]; exact ih b


theorem argmaxFirst_isSome {α : Type} (l : List α) (f : α → Frac) (hne : l ≠ []) :
    (argmaxFirst l f).isSome = true := by
  unfold argmaxFirst
  cases l with
  | nil => exact absurd rfl hne
  | cons y ys =>
    simp only [List.foldl_cons]
    exact argmaxFirst_aux_isSome f ys y


theorem argmaxFirst_none {α : Type} (f : α → Frac) :
    argmaxFirst ([] : List α) f = none := rfl


theorem alookup_eq_none {β : Type} (m : List (String × β)) (k : String)
    (h : ∀ p ∈ m, p.1 ≠ k) : alookup m k = none := by
  induction m with
  | nil => rfl
  | cons p rest ih =>
    unfold alookup
    rw [if_neg (h p (List.mem_cons_self p rest))]
    exact ih fun q hq => h q (List.mem_cons_of_mem p hq)


theorem alookup_mem {β : Type} (m : List (String × β)) (k : String) (v : β)
    (h : alookup m k = some v) : (k, v) ∈ m := by
  induction m with
  | nil => simp [alookup] at h
  | cons p rest ih =>
    unfold alookup at h
    by_cases hk : p.1 = k
    · rw [if_pos hk, Option.some_inj] at h
      have hp : p = (k, v) := by
        cases p
        simp only [Prod.mk.injEq]
        exact ⟨hk, h⟩
      exact List.mem_cons.mpr (Or.inl hp.symm)
    · rw [if_neg hk] at h
      exact List.mem_cons_of_mem p (ih h)


/-- Reading a `filterMap`-built association list whose generator preserves
keys, at a key the (key-nodup) source list binds. -/
theorem alookup_filterMap {β γ : Type}
    (l : List (String × β)) (g : String × β → Option (String × γ))
    (hg : ∀ cp r, g cp = some r → r.1 = cp.1)
    (hnd : (l.map (·.1)).Nodup)
    (k : String) (v : β) (hmem : (k, v) ∈ l) :
    alookup (l.filterMap g) k = (g (k, v)).map (·.2) := by
  induction l with
  | nil => simp at hmem
  | cons p rest ih =>
    simp only [List.map_cons, List.nodup_cons] at hnd
    rcases List.mem_cons.mp hmem with heq | hmem'
    · subst heq
      have hnotin : ∀ q ∈ rest.filterMap g, q.1 ≠ k := by
        intro q hq
        obtain ⟨cp, hcp, hgcp⟩ := List.mem_filterMap.mp hq
        rw [hg cp q hgcp]
        intro hk
        exact hnd.1 (hk ▸ List.mem_map_of_mem (·.1) hcp)
      rw [List.filterMap_cons]
      cases hgp : g (k, v) with
      | none => simpa [hgp] using alookup_eq_none _ _ hnotin
      | some r =>
        have hr1 : r.1 = k := hg _ _ hgp
        simp only [hgp]
        unfold alookup
        rw [if_pos hr1]
        rfl
    · have hpk : p.1 ≠ k := by
        intro hk
        exact hnd.1 (hk ▸ List.mem_map_of_mem (·.1) hmem')
      rw [List.filterMap_cons]
      cases hgp : g p with
      | none => exact ih hnd.2 hmem'
      | some r =>
        have hr1 : r.1 = p.1 := hg _ _ hgp
        unfold alookup
        rw [if_neg (by rw [hr1]; exact hpk)]
        exact ih hnd.2 hmem'


/-! ### Claims -/

/-- C1: the spec asserts `optimizePortfolio([], [], maxAds=3)` returns an
empty `winning_portfolio` and raises no exception, but on empty input
`performances` is empty, no ad clears the 5 percent threshold, and the
fallback `max(performances.keys(), ...)` raises `ValueError` (modelled by
`none`): the call fails instead of returning an empty result. -/
theorem optimize_portfolio_empty_input_raises :
    PortfolioOptimizer.optimize_portfolio [] [] 3 = none := rfl


theorem sum_ite_eq_count (keys : List String) (keyp : String) (cnt : Nat) :
    (keys.map (fun k => if k = keyp then cnt else 0)).sum = keys.count keyp * cnt := by
  induction keys with
  | nil => simp
  | cons k ks ih =>
    simp only [List.map_cons, List.sum_cons, ih]
    by_cases h : k = keyp
    · subst h
      rw [if_pos rfl, List.count_cons_self]
      ring
    · rw [if_neg h, List.count_cons_of_ne (fun he => h he.symm)]
      omega


/-- C5: `fragment_audience_into_clusters` is an exhaustive deterministic
partition: each persona of the input occurs in exactly one cluster, the
key of that cluster is `{AgeCategory}_{OccupationCategory}` for the four
distinctive occupation categories and `{Zone}_{PurchasingPowerTier}`
otherwise, and the multiset of personas across all clusters preserves the
input multiplicities (none dropped, none duplicated). -/
theorem fragment_audience_partition
    (personas : List EnrichedPersona) (p : EnrichedPersona) (hp : p ∈ personas) :
    (PortfolioOptimizer.fragment_audience_into_clusters personas).countP
        (fun c => p ∈ c.2) = 1
    ∧ (∀ c ∈ PortfolioOptimizer.fragment_audience_into_clusters personas, p ∈ c.2 →
        c.1 = (if PortfolioOptimizer._categorize_occupation p.occupation ∈
            ["Export_Manager", "Import_Manager", "Freelancer", "Consultant"] then
          PortfolioOptimizer._categorize_age p.age ++ "_"
            ++ PortfolioOptimizer._categorize_occupation p.occupation
        else p.zone ++ "_" ++ p.purchasing_power_tier.str))
    ∧ (((PortfolioOptimizer.fragment_audience_into_clusters personas).map (·.2)).flatten.count p
        = personas.count p) := by
  have hkey : ∀ q : EnrichedPersona,
      PortfolioOptimizer.clusterKeyOf q =
        (if PortfolioOptimizer._categorize_occupation q.occupation ∈
            ["Export_Manager", "Import_Manager", "Freelancer", "Consultant"] then
          PortfolioOptimizer._categorize_age q.age ++ "_"
            ++ PortfolioOptimizer._categorize_occupation q.occupation
        else q.zone ++ "_" ++ q.purchasing_power_tier.str) := fun q => rfl
  set keyp := PortfolioOptimizer.clusterKeyOf p with hkeyp
  have hkeys_mem : keyp ∈ insertOrderDedup (personas.map PortfolioOptimizer.clusterKeyOf) := by
    rw [insertOrderDedup_mem]
    exact List.mem_map_of_mem PortfolioOptimizer.clusterKeyOf hp
  have hkeys_nodup := insertOrderDedup_nodup (personas.map PortfolioOptimizer.clusterKeyOf)
  refine ⟨?_, ?_, ?_⟩
  · unfold PortfolioOptimizer.fragment_audience_into_clusters
    rw [List.countP_map]
    have hstep : (insertOrderDedup (personas.map PortfolioOptimizer.clusterKeyOf)).countP
        ((fun c : String × List EnrichedPersona => decide (p ∈ c.2)) ∘
          (fun k => (k, personas.filter (fun q => PortfolioOptimizer.clusterKeyOf q = k))))
        = (insertOrderDedup (personas.map PortfolioOptimizer.clusterKeyOf)).count keyp := by
      unfold List.count
      apply List.countP_congr
      intro k _
      simp only [Function.comp_apply, decide_eq_true_eq, List.mem_filter, beq_iff_eq]
      constructor
      · rintro ⟨_, hk2⟩
        exact hk2.symm
      · rintro rfl
        exact ⟨hp, rfl⟩
    rw [hstep]
    exact List.count_eq_one_of_mem hkeys_nodup hkeys_mem
  · intro c hc hpc
    unfold PortfolioOptimizer.fragment_audience_into_clusters at hc
    obtain ⟨k, _, rfl⟩ := List.mem_map.mp hc
    simp only [List.mem_filter, decide_eq_true_eq] at hpc
    rw [← hkey p, ← hpc.2]
  · unfold PortfolioOptimizer.fragment_audience_into_clusters
    rw [List.map_map, List.count_flatten, List.map_map]
    have hrw : List.map
        (List.count p ∘ (fun x : String × List EnrichedPersona => x.2) ∘
          fun k => (k, personas.filter (fun q => PortfolioOptimizer.clusterKeyOf q = k)))
        (insertOrderDedup (personas.map PortfolioOptimizer.clusterKeyOf))
        = List.map (fun k => if k = keyp then personas.count p else 0)
          (insertOrderDedup (personas.map PortfolioOptimizer.clusterKeyOf)) := by
      apply List.map_congr_left
      intro k _
      simp only [Function.comp_apply]
      by_cases hk : k = keyp
      · subst hk
        rw [if_pos rfl]
        apply List.count_filter
        simp [hkeyp]
      · rw [if_neg hk, List.count_eq_zero]
        intro hmem
        rcases List.mem_filter.mp hmem with ⟨_, hk2⟩
        exact hk (by rw [← (decide_eq_true_eq.mp hk2), hkeyp])
    rw [hrw, sum_ite_eq_count,
        List.count_eq_one_of_mem hkeys_nodup hkeys_mem, one_mul]


/-- Witness for C5 at a concrete input. -/
theorem fragment_audience_partition_witness :
    wP1 ∈ [wP1]
    ∧ ((PortfolioOptimizer.fragment_audience_into_clusters [wP1]).countP
        (fun c => wP1 ∈ c.2) = 1
      ∧ (∀ c ∈ PortfolioOptimizer.fragment_audience_into_clusters [wP1], wP1 ∈ c.2 →
          c.1 = (if PortfolioOptimizer._categorize_occupation wP1.occupation ∈
              ["Export_Manager", "Import_Manager", "Freelancer", "Consultant"] then
            PortfolioOptimizer._categorize_age wP1.age ++ "_"
              ++ PortfolioOptimizer._categorize_occupation wP1.occupation
          else wP1.zone ++ "_" ++ wP1.purchasing_power_tier.str))
      ∧ (((PortfolioOptimizer.fragment_audience_into_clusters [wP1]).map (·.2)).flatten.count wP1
          = [wP1].count wP1)) :=
  ⟨by decide, fragment_audience_partition [wP1] wP1 (by decide)⟩


theorem rnd_eq_roundHalfEvenQ (x : Frac) : Frac.rnd x = roundHalfEvenQ (Frac.toQ x) := by
  have hfl : x.floor = ⌊Frac.toQ x⌋ := by exact_mod_cast Frac.floor_toQ x
  have hr : Frac.toQ (x - Frac.ofInt x.floor) = Frac.toQ x - (⌊Frac.toQ x⌋ : ℚ) := by
    rw [Frac.toQ_sub, Frac.toQ_ofInt, hfl]
  have hhalf : Frac.toQ Frac.half = 1 / 2 := by
    unfold Frac.toQ Frac.half
    norm_num
  unfold Frac.rnd roundHalfEvenQ
  by_cases h1 : Frac.toQ x - (⌊Frac.toQ x⌋ : ℚ) < 1 / 2
  · rw [if_pos ((Frac.toQ_blt _ _).mpr (by rw [hr, hhalf]; exact h1)), if_pos h1, hfl]
  · rw [if_neg (fun hb => h1 (by rw [← hr, ← hhalf]; exact (Frac.toQ_blt _ _).mp hb)),
        if_neg h1]
    by_cases h2 : 1 / 2 < Frac.toQ x - (⌊Frac.toQ x⌋ : ℚ)
    · rw [if_pos ((Frac.toQ_blt _ _).mpr (by rw [hr, hhalf]; exact h2)), if_pos h2, hfl]
    · rw [if_neg (fun hb => h2 (by rw [← hr, ← hhalf]; exact (Frac.toQ_blt _ _).mp hb)),
          if_neg h2, hfl]


theorem toQ_pyRound (x : Frac) (d : Nat) :
    Frac.toQ (Frac.pyRound x d) = pyRoundQ (Frac.toQ x) d := by
  unfold Frac.pyRound pyRoundQ
  show ((Frac.rnd (x * Frac.ofNat (10 ^ d)) : ℤ) : ℚ) / ((10 ^ d : ℕ) : ℚ) = _
  rw [rnd_eq_roundHalfEvenQ]
  have hval : Frac.toQ (x * Frac.ofNat (10 ^ d)) = Frac.toQ x * 10 ^ d := by
    rw [Frac.toQ_mul, Frac.toQ_ofNat]
    push_cast
    ring
  rw [hval]
  push_cast
  ring


theorem length_insertOrderDedup_eq_card (l : List String) :
    (insertOrderDedup l).length = l.toFinset.card := by
  rw [← List.toFinset_card_of_nodup (insertOrderDedup_nodup l)]
  congr 1
  ext x
  simp [List.mem_toFinset, insertOrderDedup_mem]


theorem countP_mem_eq_inter_card (A B : List String) (hA : A.Nodup) :
    A.countP (fun u => decide (u ∈ B)) = (A.toFinset ∩ B.toFinset).card := by
  rw [List.countP_eq_length_filter,
      ← List.toFinset_card_of_nodup (hA.filter (fun u => decide (u ∈ B)))]
  congr 1
  ext x
  simp [List.mem_toFinset, List.mem_filter, Finset.mem_inter]


theorem isPrefixOf_append_self (pat suf : List Char) :
    pat.isPrefixOf (pat ++ suf) = true := by
  induction pat with
  | nil => cases suf <;> rfl
  | cons c cs ih =>
    simp only [List.cons_append, List.isPrefixOf_cons₂_self]
    exact ih


theorem hasInfixAux_isPrefixOf (pat suf : List Char) :
    hasInfixAux pat (pat ++ suf) = true := by
  cases pat with
  | nil =>
    cases suf with
    | nil => rfl
    | cons c rest =>
      show (List.isPrefixOf [] (c :: rest) || hasInfixAux [] rest) = true
      rfl
  | cons p ps =>
    show ((p :: ps).isPrefixOf (p :: (ps ++ suf)) || hasInfixAux (p :: ps) (ps ++ suf)) = true
    have h := isPrefixOf_append_self (p :: ps) suf
    simp only [List.cons_append] at h
    rw [h]
    rfl


theorem hasInfixAux_append_left (l pat tail : List Char)
    (h : hasInfixAux pat tail = true) : hasInfixAux pat (l ++ tail) = true := by
  induction l with
  | nil => exact h
  | cons c cs ih =>
    show (pat.isPrefixOf (c :: (cs ++ tail)) || hasInfixAux pat (cs ++ tail)) = true
    rw [ih]
    exact Bool.or_true _


theorem string_data_append (a b : String) : (a ++ b).data = a.data ++ b.data := rfl


theorem length_filterMap_guard {α β : Type} (l : List α) (cond : α → Bool) (g : α → β) :
    (l.filterMap (fun x => if cond x then some (g x) else none)).length = l.countP cond := by
  induction l with
  | nil => rfl
  | cons x xs ih =>
    rw [List.filterMap_cons, List.countP_cons]
    by_cases h : cond x = true
    · rw [if_pos h, h]
      simpa using ih
    · rw [if_neg h, Bool.not_eq_true] at *
      rw [h]
      simpa using ih


/-- C6: `detect_clickbait_traps` emits as many warnings as there are
performance entries with click rate above 15 percent and conversion rate
below 5 percent; each such ad's warning is present and mentions the ad id
and both (rendered) rates.  Together with the count this gives exactly
one warning per qualifying ad and none for the others. -/
theorem detect_clickbait_traps_spec
    (performances : List (String × AdPerformance)) (ad : String) (perf : AdPerformance)
    (hmem : (ad, perf) ∈ performances) :
    (PortfolioOptimizer.detect_clickbait_traps performances).length
      = performances.countP
          (fun p => (15 : Frac).blt p.2.click_rate && p.2.conversion_rate.blt 5)
    ∧ (15 < Frac.toQ perf.click_rate ∧ Frac.toQ perf.conversion_rate < 5 →
        PortfolioOptimizer.trapMsg ad perf.click_rate perf.conversion_rate
            ∈ PortfolioOptimizer.detect_clickbait_traps performances
        ∧ strContains (PortfolioOptimizer.trapMsg ad perf.click_rate perf.conversion_rate)
            ad = true
        ∧ strContains (PortfolioOptimizer.trapMsg ad perf.click_rate perf.conversion_rate)
            (floatRepr2 perf.click_rate) = true
        ∧ strContains (PortfolioOptimizer.trapMsg ad perf.click_rate perf.conversion_rate)
            (floatRepr2 perf.conversion_rate) = true) := by
  constructor
  · unfold PortfolioOptimizer.detect_clickbait_traps
    exact length_filterMap_guard performances _
      (fun p => PortfolioOptimizer.trapMsg p.1 p.2.click_rate p.2.conversion_rate)
  · rintro ⟨hcr, hcv⟩
    have hcond : ((15 : Frac).blt perf.click_rate && perf.conversion_rate.blt 5) = true := by
      rw [Bool.and_eq_true]
      constructor
      · rw [Frac.toQ_blt, Frac.toQ_instOfNat]
        exact_mod_cast hcr
      · rw [Frac.toQ_blt, Frac.toQ_instOfNat]
        exact_mod_cast hcv
    refine ⟨?_, ?_, ?_, ?_⟩
    · unfold PortfolioOptimizer.detect_clickbait_traps
      exact List.mem_filterMap.mpr ⟨(ad, perf), hmem, by rw [if_pos hcond]⟩
    · unfold PortfolioOptimizer.trapMsg strContains
      simp only [string_data_append, List.append_assoc]
      exact hasInfixAux_append_left _ _ _ (hasInfixAux_isPrefixOf _ _)
    · unfold PortfolioOptimizer.trapMsg strContains
      simp only [string_data_append, List.append_assoc]
      exact hasInfixAux_append_left _ _ _ (hasInfixAux_append_left _ _ _
        (hasInfixAux_append_left _ _ _ (hasInfixAux_isPrefixOf _ _)))
    · unfold PortfolioOptimizer.trapMsg strContains
      simp only [string_data_append, List.append_assoc]
      exact hasInfixAux_append_left _ _ _ (hasInfixAux_append_left _ _ _
        (hasInfixAux_append_left _ _ _ (hasInfixAux_append_left _ _ _
          (hasInfixAux_append_left _ _ _ (hasInfixAux_isPrefixOf _ _)))))


set_option maxRecDepth 8000 in
/-- Witness for C6: the scenario ad qualifies and gets exactly one
warning naming it. -/
theorem detect_clickbait_traps_witness :
    ("ad_x", c6Perf) ∈ c6Perfs
    ∧ (15 < Frac.toQ c6Perf.click_rate ∧ Frac.toQ c6Perf.conversion_rate < 5)
    ∧ (PortfolioOptimizer.detect_clickbait_traps c6Perfs).length = 1
    ∧ PortfolioOptimizer.trapMsg "ad_x" c6Perf.click_rate c6Perf.conversion_rate
        ∈ PortfolioOptimizer.detect_clickbait_traps c6Perfs
    ∧ strContains (PortfolioOptimizer.trapMsg "ad_x" c6Perf.click_rate c6Perf.conversion_rate)
        "ad_x" = true := by
  have hcr : c6Perf.click_rate = ⟨2000, 100, by omega⟩ := by decide
  have hcv : c6Perf.conversion_rate = ⟨300, 100, by omega⟩ := by decide
  have hq : 15 < Frac.toQ c6Perf.click_rate ∧ Frac.toQ c6Perf.conversion_rate < 5 := by
    rw [hcr, hcv]
    unfold Frac.toQ
    norm_num
  have hmem : ("ad_x", c6Perf) ∈ c6Perfs := by decide
  have h := detect_clickbait_traps_spec c6Perfs "ad_x" c6Perf hmem
  exact ⟨hmem, hq, by rw [h.1]; decide, (h.2 hq).1, (h.2 hq).2.1⟩


/-- C3: every entry of the overlap matrix is the A-normalised asymmetric
overlap of the engaged audiences: the diagonal is `1.0`, and for `A ≠ B`
the entry is `|audience(A) ∩ audience(B)| / |audience(A)|` rounded to 3
decimals (with `0.0` for an empty `audience(A)`), where `audience` keeps
only reactions with a click or High or Medium intent. -/
theorem calculate_audience_overlap_entries
    (reactions : List AdReaction) (a b : String)
    (row : List (String × Frac)) (v : Frac)
    (hrow : (a, row) ∈ PortfolioOptimizer.calculate_audience_overlap reactions)
    (hv : (b, v) ∈ row) :
    (a = b → Frac.toQ v = 1)
    ∧ (a ≠ b →
        Frac.toQ v =
          (if (engagedAudience reactions a).card = 0 then 0
           else pyRoundQ
             (((engagedAudience reactions a ∩ engagedAudience reactions b).card : ℚ)
               / ((engagedAudience reactions a).card : ℚ)) 3)) := by
  unfold PortfolioOptimizer.calculate_audience_overlap at hrow
  obtain ⟨ada, _, heq⟩ := List.mem_map.mp hrow
  injection heq with h1 h2
  subst h1
  subst h2
  obtain ⟨adb, _, heqb⟩ := List.mem_map.mp hv
  have hlen : ∀ x : String,
      (insertOrderDedup (((reactions.filter PortfolioOptimizer.is_engaged).filter
          (fun r => r.ad_id = x)).map (·.persona_uuid))).length
        = (engagedAudience reactions x).card := by
    intro x
    rw [length_insertOrderDedup_eq_card]
    rfl
  have hcnt : ∀ x y : String,
      (insertOrderDedup (((reactions.filter PortfolioOptimizer.is_engaged).filter
          (fun r => r.ad_id = x)).map (·.persona_uuid))).countP
        (fun u => decide (u ∈ insertOrderDedup
          (((reactions.filter PortfolioOptimizer.is_engaged).filter
            (fun r => r.ad_id = y)).map (·.persona_uuid))))
        = ((engagedAudience reactions x) ∩ (engagedAudience reactions y)).card := by
    intro x y
    rw [List.countP_congr (q := fun u => decide (u ∈
        ((reactions.filter PortfolioOptimizer.is_engaged).filter
          (fun r => r.ad_id = y)).map (·.persona_uuid)))
      (by
        intro u _
        simp [insertOrderDedup_mem])]
    rw [countP_mem_eq_inter_card _ _ (insertOrderDedup_nodup _)]
    unfold engagedAudience
    congr 1
    ext z
    simp [List.mem_toFinset, insertOrderDedup_mem]
  by_cases hab : ada = adb
  · rw [if_pos hab] at heqb
    injection heqb with hb1 hb2
    subst hb1
    constructor
    · intro _
      rw [← hb2, Frac.toQ_instOfNat]
      norm_num
    · intro hne
      exact absurd hab hne
  · rw [if_neg hab] at heqb
    dsimp only at heqb
    by_cases hz : (insertOrderDedup
        (((reactions.filter PortfolioOptimizer.is_engaged).filter
          (fun r => r.ad_id = ada)).map (·.persona_uuid))).length = 0
    · rw [if_pos hz] at heqb
      injection heqb with hb1 hb2
      subst hb1
      refine ⟨fun hKeq => absurd hKeq hab, fun _ => ?_⟩
      rw [← hb2, Frac.toQ_instOfNat, if_pos (by rw [← hlen ada]; exact hz)]
      norm_num
    · rw [if_neg hz] at heqb
      injection heqb with hb1 hb2
      subst hb1
      refine ⟨fun hKeq => absurd hKeq hab, fun _ => ?_⟩
      rw [← hb2, toQ_pyRound, if_neg (by rw [← hlen ada]; exact hz)]
      congr 1
      rw [Frac.toQ_div, Frac.toQ_ofNat, Frac.toQ_ofNat, hcnt ada adb, hlen ada]


/-- Witness for C3 at a concrete input. -/
theorem calculate_audience_overlap_entries_witness :
    ("adA", c3Row) ∈ PortfolioOptimizer.calculate_audience_overlap c3Reactions
    ∧ ("adB", c3V) ∈ c3Row
    ∧ (("adA" : String) = "adB" → Frac.toQ c3V = 1)
    ∧ (("adA" : String) ≠ "adB" →
        Frac.toQ c3V =
          (if (engagedAudience c3Reactions "adA").card = 0 then 0
           else pyRoundQ
             (((engagedAudience c3Reactions "adA" ∩ engagedAudience c3Reactions "adB").card : ℚ)
               / ((engagedAudience c3Reactions "adA").card : ℚ)) 3)) := by
  have h := calculate_audience_overlap_entries c3Reactions "adA" "adB" c3Row c3V
    (by decide) (by decide)
  exact ⟨by decide, by decide, h.1, h.2⟩


/-- C9: `calculate_ad_performance` builds its `persona_map` local and
never reads it, so the result does not depend on the `personas` argument:
orphan reactions are counted like any other in impressions, clicks,
high-intent leads and unique reach. -/
theorem calculate_ad_performance_ignores_personas
    (reactions : List AdReaction) (P1 P2 : List EnrichedPersona) :
    PortfolioOptimizer.calculate_ad_performance reactions P1
      = PortfolioOptimizer.calculate_ad_performance reactions P2 := rfl



theorem owner_for_key (reactions : List AdReaction) (ad_ids : List String) :
    ∀ cp r, PortfolioOptimizer.owner_for reactions ad_ids cp = some r → r.1 = cp.1 := by
  intro cp r h
  unfold PortfolioOptimizer.owner_for at h
  by_cases he : cp.2.isEmpty
  · rw [if_pos he] at h
    simp at h
  · rw [if_neg he] at h
    cases harg : argmaxFirst (insertOrderDedup ad_ids)
        (fun ad => (PortfolioOptimizer.ad_score_for cp.2 reactions ad).score) with
    | none =>
      rw [harg] at h
      simp at h
    | some win =>
      rw [harg] at h
      dsimp only at h
      by_cases hb : (PortfolioOptimizer.ad_score_for cp.2 reactions win).score.beq 0 = true
      · rw [if_pos hb] at h
        simp at h
      · rw [if_neg hb] at h
        rw [Option.some_inj] at h
        rw [← h]


theorem assign_lookup_eq (clusters : List (String × List EnrichedPersona))
    (reactions : List AdReaction) (ad_ids : List String)
    (hnd : (clusters.map (·.1)).Nodup)
    (cid : String) (ps : List EnrichedPersona) (hmem : (cid, ps) ∈ clusters) :
    alookup (PortfolioOptimizer.assign_segment_owners clusters reactions ad_ids) cid
      = (PortfolioOptimizer.owner_for reactions ad_ids (cid, ps)).map (·.2) := by
  unfold PortfolioOptimizer.assign_segment_owners
  exact alookup_filterMap clusters (PortfolioOptimizer.owner_for reactions ad_ids)
    (owner_for_key reactions ad_ids) hnd cid ps hmem


theorem ad_score_nonneg (ps : List EnrichedPersona) (reactions : List AdReaction)
    (ad : String) :
    0 ≤ Frac.toQ (PortfolioOptimizer.ad_score_for ps reactions ad).score := by
  unfold PortfolioOptimizer.ad_score_for
  by_cases h : (PortfolioOptimizer.cluster_reactions_for ps reactions ad).isEmpty
  · rw [if_pos h]
    rw [Frac.toQ_instOfNat]
    norm_num
  · rw [if_neg h]
    dsimp only
    simp only [Frac.toQ_mul, Frac.toQ_add, Frac.toQ_div, Frac.toQ_ofNat,
      Frac.toQ_instOfNat, Frac.meanNat]
    positivity


theorem ad_score_empty_personas (reactions : List AdReaction) (ad : String) :
    (PortfolioOptimizer.ad_score_for [] reactions ad).score = 0 := rfl


/-- C4: with the clusters dict's keys distinct, a cluster appears in
`assign_segment_owners`'s output exactly when some given ad has a nonzero
final score on it (equivalently, the maximum score is nonzero, all scores
being non-negative), and the recorded winning ad is an argmax of the
final score over the given ad ids. -/
theorem assign_segment_owners_keys
    (clusters : List (String × List EnrichedPersona)) (reactions : List AdReaction)
    (ad_ids : List String) (hnd : (clusters.map (·.1)).Nodup)
    (cid : String) (ps : List EnrichedPersona) (hmem : (cid, ps) ∈ clusters) :
    ((alookup (PortfolioOptimizer.assign_segment_owners clusters reactions ad_ids)
        cid).isSome
      ↔ ∃ ad ∈ ad_ids, Frac.toQ (PortfolioOptimizer.ad_score_for ps reactions ad).score ≠ 0)
    ∧ (∀ o, alookup (PortfolioOptimizer.assign_segment_owners clusters reactions ad_ids) cid
          = some o →
        o.winning_ad ∈ ad_ids
        ∧ ∀ ad ∈ ad_ids,
            Frac.toQ (PortfolioOptimizer.ad_score_for ps reactions ad).score
              ≤ Frac.toQ (PortfolioOptimizer.ad_score_for ps reactions o.winning_ad).score) := by
  rw [assign_lookup_eq clusters reactions ad_ids hnd cid ps hmem]
  unfold PortfolioOptimizer.owner_for
  by_cases he : ps.isEmpty
  · have hps : ps = [] := by
      cases ps
      · rfl
      · simp at he
    subst hps
    rw [if_pos he]
    constructor
    · simp only [Option.map_none', Option.isSome_none, Bool.false_eq_true, false_iff]
      rintro ⟨ad, _, hscore⟩
      exact hscore (by rw [ad_score_empty_personas, Frac.toQ_instOfNat]; norm_num)
    · intro o ho
      simp at ho
  · rw [if_neg he]
    cases harg : argmaxFirst (insertOrderDedup ad_ids)
        (fun ad => (PortfolioOptimizer.ad_score_for ps reactions ad).score) with
    | none =>
      have hempty : insertOrderDedup ad_ids = [] := by
        by_contra hne
        have := argmaxFirst_isSome (insertOrderDedup ad_ids)
          (fun ad => (PortfolioOptimizer.ad_score_for ps reactions ad).score) hne
        rw [harg] at this
        simp at this
      have hads : ad_ids = [] := by
        rw [List.eq_nil_iff_forall_not_mem]
        intro x hx
        have := (insertOrderDedup_mem ad_ids x).mpr hx
        rw [hempty] at this
        simp at this
      subst hads
      constructor
      · simp
      · intro o ho
        simp at ho
    | some win =>
      dsimp only
      obtain ⟨hwin_mem, hwin_max⟩ := argmaxFirst_spec _ _ _ harg
      have hwin_ads : win ∈ ad_ids := (insertOrderDedup_mem ad_ids win).mp hwin_mem
      by_cases hb : (PortfolioOptimizer.ad_score_for ps reactions win).score.beq 0 = true
      · rw [if_pos hb]
        have hzero := (Frac.toQ_beq _ _).mp hb
        rw [Frac.toQ_instOfNat] at hzero
        norm_num at hzero
        constructor
        · simp only [Option.map_none', Option.isSome_none, Bool.false_eq_true, false_iff]
          rintro ⟨ad, had, hscore⟩
          have hle := hwin_max ad ((insertOrderDedup_mem ad_ids ad).mpr had)
          have hge := ad_score_nonneg ps reactions ad
          exact hscore (le_antisymm (by rw [hzero] at hle; exact hle) hge)
        · intro o ho
          simp at ho
      · rw [if_neg hb]
        have hnz : Frac.toQ (PortfolioOptimizer.ad_score_for ps reactions win).score ≠ 0 := by
          intro h0
          exact hb ((Frac.toQ_beq _ _).mpr (by rw [h0, Frac.toQ_instOfNat]; norm_num))
        constructor
        · simp only [Option.map_some', Option.isSome_some, true_iff]
          exact ⟨win, hwin_ads, hnz⟩
        · intro o ho
          simp only [Option.map_some', Option.some_inj] at ho
          rw [← ho]
          refine ⟨hwin_ads, ?_⟩
          intro ad had
          exact hwin_max ad ((insertOrderDedup_mem ad_ids ad).mpr had)


/-- Witness for C4 at a concrete input. -/
theorem assign_segment_owners_keys_witness :
    ((c4Clusters.map (·.1)).Nodup ∧ ("c1", [wP1]) ∈ c4Clusters)
    ∧ (((alookup (PortfolioOptimizer.assign_segment_owners c4Clusters [wR1] ["ad_1"])
          "c1").isSome
        ↔ ∃ ad ∈ ["ad_1"],
            Frac.toQ (PortfolioOptimizer.ad_score_for [wP1] [wR1] ad).score ≠ 0)
      ∧ (∀ o, alookup (PortfolioOptimizer.assign_segment_owners c4Clusters [wR1] ["ad_1"])
            "c1" = some o →
          o.winning_ad ∈ ["ad_1"]
          ∧ ∀ ad ∈ ["ad_1"],
              Frac.toQ (PortfolioOptimizer.ad_score_for [wP1] [wR1] ad).score
                ≤ Frac.toQ (PortfolioOptimizer.ad_score_for [wP1] [wR1] o.winning_ad).score)) :=
  ⟨⟨by decide, by decide⟩,
   assign_segment_owners_keys c4Clusters [wR1] ["ad_1"] (by decide) "c1" [wP1] (by decide)⟩


theorem ad_score_pos_parts (ps : List EnrichedPersona) (reactions : List AdReaction)
    (ad : String)
    (hnz : Frac.toQ (PortfolioOptimizer.ad_score_for ps reactions ad).score ≠ 0) :
    1 ≤ (PortfolioOptimizer.ad_score_for ps reactions ad).high_intent_count
    ∧ 0 < Frac.toQ (PortfolioOptimizer.ad_score_for ps reactions ad).trust
    ∧ 0 < Frac.toQ (PortfolioOptimizer.ad_score_for ps reactions ad).relevance
    ∧ ∃ r ∈ PortfolioOptimizer.cluster_reactions_for ps reactions ad,
        r.intent_level = Intent.High := by
  unfold PortfolioOptimizer.ad_score_for at hnz ⊢
  by_cases hc : (PortfolioOptimizer.cluster_reactions_for ps reactions ad).isEmpty
  · rw [if_pos hc] at hnz
    dsimp only at hnz
    rw [Frac.toQ_instOfNat] at hnz
    norm_num at hnz
  · rw [if_neg hc] at hnz ⊢
    dsimp only at hnz ⊢
    simp only [Frac.toQ_mul, Frac.toQ_add, Frac.toQ_div, Frac.toQ_ofNat,
      Frac.toQ_instOfNat, Frac.meanNat, mul_ne_zero_iff] at hnz
    obtain ⟨⟨⟨htrust, hrel⟩, hconv, -⟩, -⟩ := hnz
    have htrust_pos : 0 < Frac.toQ (Frac.meanNat
        ((PortfolioOptimizer.cluster_reactions_for ps reactions ad).map (·.trust_score))) := by
      apply lt_of_le_of_ne (Frac.meanNat_nonneg _)
      intro h0
      apply htrust
      simpa [Frac.meanNat, Frac.toQ_div, Frac.toQ_ofNat] using h0.symm
    have hrel_pos : 0 < Frac.toQ (Frac.meanNat
        ((PortfolioOptimizer.cluster_reactions_for ps reactions ad).map (·.relevance_score))) := by
      apply lt_of_le_of_ne (Frac.meanNat_nonneg _)
      intro h0
      apply hrel
      simpa [Frac.meanNat, Frac.toQ_div, Frac.toQ_ofNat] using h0.symm
    have hcount : 0 < (PortfolioOptimizer.cluster_reactions_for ps reactions ad).countP
        (fun r => r.intent_level = Intent.High) := by
      by_contra hle
      push_neg at hle
      interval_cases hcp : (PortfolioOptimizer.cluster_reactions_for ps reactions ad).countP
        (fun r => r.intent_level = Intent.High)
      simp at hconv
    refine ⟨hcount, ?_, ?_, ?_⟩
    · simpa [Frac.meanNat, Frac.toQ_div, Frac.toQ_ofNat] using htrust_pos
    · simpa [Frac.meanNat, Frac.toQ_div, Frac.toQ_ofNat] using hrel_pos
    · obtain ⟨r, hr, hrp⟩ := List.countP_pos_iff.mp hcount
      exact ⟨r, hr, of_decide_eq_true hrp⟩


/-- C10: every record of `assign_segment_owners` has at least one
high-intent reaction behind it: its `high_intent_count` is at least 1 and
the unrounded average trust and relevance of the winning ad's reactions in
the cluster are strictly positive, because a nonzero winning score forces
every factor positive; in particular some reaction in the input has High
intent, the winning ad's id, and the uuid of a persona of that cluster. -/
theorem assign_segment_owners_record_positive
    (clusters : List (String × List EnrichedPersona)) (reactions : List AdReaction)
    (ad_ids : List String) (hnd : (clusters.map (·.1)).Nodup)
    (cid : String) (ps : List EnrichedPersona) (hmem : (cid, ps) ∈ clusters)
    (o : SegmentOwnership)
    (ho : alookup (PortfolioOptimizer.assign_segment_owners clusters reactions ad_ids) cid
      = some o) :
    1 ≤ o.high_intent_count
    ∧ 0 < Frac.toQ (PortfolioOptimizer.ad_score_for ps reactions o.winning_ad).trust
    ∧ 0 < Frac.toQ (PortfolioOptimizer.ad_score_for ps reactions o.winning_ad).relevance
    ∧ ∃ r ∈ reactions, r.ad_id = o.winning_ad ∧ r.intent_level = Intent.High
        ∧ ∃ p ∈ ps, r.persona_uuid = p.uuid := by
  rw [assign_lookup_eq clusters reactions ad_ids hnd cid ps hmem] at ho
  unfold PortfolioOptimizer.owner_for at ho
  by_cases he : ps.isEmpty
  · rw [if_pos he] at ho
    simp at ho
  · rw [if_neg he] at ho
    cases harg : argmaxFirst (insertOrderDedup ad_ids)
        (fun ad => (PortfolioOptimizer.ad_score_for ps reactions ad).score) with
    | none =>
      rw [harg] at ho
      simp at ho
    | some win =>
      rw [harg] at ho
      dsimp only at ho
      by_cases hb : (PortfolioOptimizer.ad_score_for ps reactions win).score.beq 0 = true
      · rw [if_pos hb] at ho
        simp at ho
      · rw [if_neg hb] at ho
        simp only [Option.map_some', Option.some_inj] at ho
        have hnz : Frac.toQ (PortfolioOptimizer.ad_score_for ps reactions win).score ≠ 0 := by
          intro h0
          exact hb ((Frac.toQ_beq _ _).mpr (by rw [h0, Frac.toQ_instOfNat]; norm_num))
        obtain ⟨hcount, htr, hrl, r, hrmem, hrhigh⟩ := ad_score_pos_parts ps reactions win hnz
        have hwin : o.winning_ad = win := by rw [← ho]
        have hhic : o.high_intent_count
            = (PortfolioOptimizer.ad_score_for ps reactions win).high_intent_count := by
          rw [← ho]
        obtain ⟨p, hpmem, hrfil⟩ := List.mem_flatMap.mp hrmem
        rw [List.mem_filter] at hrfil
        obtain ⟨hrre, hrcond⟩ := hrfil
        rw [Bool.and_eq_true] at hrcond
        refine ⟨?_, ?_, ?_, r, hrre, ?_, hrhigh, p, hpmem, ?_⟩
        · rw [hhic]
          exact hcount
        · rw [hwin]
          exact htr
        · rw [hwin]
          exact hrl
        · rw [hwin]
          exact of_decide_eq_true hrcond.2
        · exact of_decide_eq_true hrcond.1


/-- Witness for C10 at a concrete input. -/
theorem assign_segment_owners_record_positive_witness :
    ((c4Clusters.map (·.1)).Nodup ∧ ("c1", [wP1]) ∈ c4Clusters
      ∧ alookup (PortfolioOptimizer.assign_segment_owners c4Clusters [wR1] ["ad_1"]) "c1"
          = some c10O)
    ∧ (1 ≤ c10O.high_intent_count
      ∧ 0 < Frac.toQ (PortfolioOptimizer.ad_score_for [wP1] [wR1] c10O.winning_ad).trust
      ∧ 0 < Frac.toQ (PortfolioOptimizer.ad_score_for [wP1] [wR1] c10O.winning_ad).relevance
      ∧ ∃ r ∈ [wR1], r.ad_id = c10O.winning_ad ∧ r.intent_level = Intent.High
          ∧ ∃ p ∈ [wP1], r.persona_uuid = p.uuid) :=
  ⟨⟨by decide, by decide, by decide⟩,
   assign_segment_owners_record_positive c4Clusters [wR1] ["ad_1"] (by decide) "c1" [wP1]
     (by decide) c10O (by decide)⟩


theorem build_recommendation_isSome (reactions : List AdReaction)
    (performances : List (String × AdPerformance))
    (so : List (String × SegmentOwnership)) (sv : List (String × Frac))
    (pct2 : String → Frac) (ad : String)
    (h : PortfolioOptimizer.owned_segments_of so sv ad ≠ []) :
    ∃ rec, PortfolioOptimizer.build_recommendation reactions performances so sv pct2 ad
        = some rec
      ∧ rec.budget_split = Frac.pyRound (pct2 ad) 1 := by
  unfold PortfolioOptimizer.build_recommendation
  dsimp only
  cases harg : argmaxFirst (PortfolioOptimizer.owned_segments_of so sv ad)
      (fun s => s.2.2) with
  | none =>
    have := argmaxFirst_isSome (PortfolioOptimizer.owned_segments_of so sv ad)
      (fun s => s.2.2) h
    rw [harg] at this
    simp at this
  | some primary =>
    dsimp only
    exact ⟨_, rfl, rfl⟩


theorem build_recommendation_none (reactions : List AdReaction)
    (performances : List (String × AdPerformance))
    (so : List (String × SegmentOwnership)) (sv : List (String × Frac))
    (pct2 : String → Frac) (ad : String)
    (h : PortfolioOptimizer.owned_segments_of so sv ad = []) :
    PortfolioOptimizer.build_recommendation reactions performances so sv pct2 ad = none := by
  unfold PortfolioOptimizer.build_recommendation
  dsimp only
  rw [h]
  rfl


theorem recs_map_budget (reactions : List AdReaction)
    (performances : List (String × AdPerformance))
    (so : List (String × SegmentOwnership)) (sv : List (String × Frac))
    (pct2 : String → Frac) (selected : List String)
    (h : ∀ ad ∈ selected, PortfolioOptimizer.owned_segments_of so sv ad ≠ []) :
    (selected.filterMap
        (PortfolioOptimizer.build_recommendation reactions performances so sv pct2)).map
        (fun r => Frac.toQ r.budget_split)
      = selected.map (fun ad => Frac.toQ (Frac.pyRound (pct2 ad) 1)) := by
  induction selected with
  | nil => rfl
  | cons a as ih =>
    rw [List.filterMap_cons]
    obtain ⟨rec, hrec, hbud⟩ := build_recommendation_isSome reactions performances so sv pct2 a
      (h a (List.mem_cons_self _ _))
    rw [hrec]
    simp only [List.map_cons, hbud]
    rw [ih (fun ad had => h ad (List.mem_cons_of_mem a had))]


theorem abs_sum_round_sub (l : List Frac) :
    |(l.map (fun x => Frac.toQ (Frac.pyRound x 1))).sum - (l.map Frac.toQ).sum|
      ≤ l.length * (1 / 20) := by
  induction l with
  | nil => simp
  | cons a as ih =>
    simp only [List.map_cons, List.sum_cons, List.length_cons]
    have h1 := Frac.abs_pyRound_sub_le a 1
    have : (1 : ℚ) / (2 * 10 ^ 1) = 1 / 20 := by norm_num
    rw [this] at h1
    calc |Frac.toQ (Frac.pyRound a 1) + (as.map (fun x => Frac.toQ (Frac.pyRound x 1))).sum
          - (Frac.toQ a + (as.map Frac.toQ).sum)|
        = |(Frac.toQ (Frac.pyRound a 1) - Frac.toQ a)
            + ((as.map (fun x => Frac.toQ (Frac.pyRound x 1))).sum - (as.map Frac.toQ).sum)| := by
          ring_nf
      _ ≤ |Frac.toQ (Frac.pyRound a 1) - Frac.toQ a|
            + |(as.map (fun x => Frac.toQ (Frac.pyRound x 1))).sum - (as.map Frac.toQ).sum| :=
          abs_add _ _
      _ ≤ 1 / 20 + as.length * (1 / 20) := add_le_add h1 ih
      _ = (as.length + 1) * (1 / 20) := by ring
      _ = ((as.length + 1 : ℕ) : ℚ) * (1 / 20) := by push_cast; ring


theorem mk_result_budget (reactions : List AdReaction)
    (performances : List (String × AdPerformance))
    (overlaps : List (String × List (String × Frac)))
    (old_segments : List (String × List (String × Nat)))
    (alerts : List String)
    (so : List (String × SegmentOwnership)) (sv : List (String × Frac))
    (selected : List String) (pct1 : String → Frac)
    (hselne : selected ≠ [])
    (hpos : ∀ ad ∈ selected, 0 < Frac.toQ (pct1 ad))
    (howned : ∀ ad ∈ selected, PortfolioOptimizer.owned_segments_of so sv ad ≠ []) :
    |((PortfolioOptimizer.mk_result reactions performances overlaps old_segments alerts
          so sv selected pct1).winning_portfolio.map
        (fun rec => Frac.toQ rec.budget_split)).sum - 100|
      ≤ (PortfolioOptimizer.mk_result reactions performances overlaps old_segments alerts
          so sv selected pct1).winning_portfolio.length * (1 / 20) := by
  unfold PortfolioOptimizer.mk_result
  dsimp only
  set pct2 := fun (ad : String) =>
    if (0 : Frac).blt (sumFrac (selected.map pct1)) then
      pct1 ad / sumFrac (selected.map pct1) * 100
    else pct1 ad with hpct2
  set recs := selected.filterMap
    (PortfolioOptimizer.build_recommendation reactions performances so sv pct2) with hrecs
  have hperm : List.Perm (sortDescBy (fun r => r.budget_split) recs) recs :=
    sortDescBy_perm _ _
  have hsum_eq : ((sortDescBy (fun r => r.budget_split) recs).map
        (fun rec => Frac.toQ rec.budget_split)).sum
      = (recs.map (fun rec => Frac.toQ rec.budget_split)).sum :=
    (hperm.map _).sum_eq
  have hlen_eq : (sortDescBy (fun r => r.budget_split) recs).length = recs.length :=
    hperm.length_eq
  rw [hsum_eq, hlen_eq]
  have hmap := recs_map_budget reactions performances so sv pct2 selected howned
  rw [← hrecs] at hmap
  rw [hmap]
  have hlen2 : recs.length = selected.length := by
    have := congrArg List.length hmap
    simpa using this
  rw [hlen2]
  have hT : Frac.toQ (sumFrac (selected.map pct1))
      = ((selected.map pct1).map Frac.toQ).sum := toQ_sumFrac _
  have hTpos : 0 < Frac.toQ (sumFrac (selected.map pct1)) := by
    rw [hT]
    apply List.sum_pos
    · intro x hx
      obtain ⟨y, hy, rfl⟩ := List.mem_map.mp hx
      obtain ⟨ad, had, rfl⟩ := List.mem_map.mp hy
      exact hpos ad had
    · simp only [ne_eq, List.map_eq_nil_iff]
      exact hselne
  have hblt : (0 : Frac).blt (sumFrac (selected.map pct1)) = true := by
    rw [Frac.toQ_blt, Frac.toQ_instOfNat]
    exact_mod_cast hTpos
  have hpct2_eq : ∀ ad, Frac.toQ (pct2 ad)
      = Frac.toQ (pct1 ad) * (100 / Frac.toQ (sumFrac (selected.map pct1))) := by
    intro ad
    rw [hpct2]
    dsimp only
    rw [if_pos hblt, Frac.toQ_mul, Frac.toQ_div, Frac.toQ_instOfNat]
    field_simp
  have hsum_pct2 : (selected.map (fun ad => Frac.toQ (pct2 ad))).sum = 100 := by
    rw [List.map_congr_left (fun ad _ => hpct2_eq ad), List.sum_map_mul_right]
    have : (selected.map fun ad => Frac.toQ (pct1 ad)).sum
        = Frac.toQ (sumFrac (selected.map pct1)) := by
      rw [hT, List.map_map]
      rfl
    rw [this]
    field_simp
  have hfinal := abs_sum_round_sub (selected.map pct2)
  rw [List.map_map, List.map_map] at hfinal
  have hroundmap : (selected.map ((fun x => Frac.toQ (Frac.pyRound x 1)) ∘ pct2))
      = selected.map (fun ad => Frac.toQ (Frac.pyRound (pct2 ad) 1)) := rfl
  have hvalmap : (selected.map (Frac.toQ ∘ pct2))
      = selected.map (fun ad => Frac.toQ (pct2 ad)) := rfl
  rw [hroundmap, hvalmap, hsum_pct2, List.length_map] at hfinal
  exact hfinal


theorem owned_ne_of_alloc_pos (so : List (String × SegmentOwnership))
    (sv : List (String × Frac)) (ad : String)
    (h : 0 < Frac.toQ (PortfolioOptimizer.alloc_pct_of so sv ad)) :
    PortfolioOptimizer.owned_segments_of so sv ad ≠ [] := by
  intro h0
  unfold PortfolioOptimizer.alloc_pct_of at h
  dsimp only at h
  rw [h0] at h
  by_cases hb : (0 : Frac).blt (PortfolioOptimizer.total_value_of sv) = true
  · rw [if_pos hb] at h
    rw [Frac.toQ_mul, Frac.toQ_div] at h
    have hz : Frac.toQ (sumFrac (([] : List (String × SegmentOwnership × Frac)).map
        (fun s => s.2.2))) = 0 := by
      rw [toQ_sumFrac]
      simp
    rw [hz] at h
    simp at h
  · rw [if_neg hb] at h
    rw [Frac.toQ_instOfNat] at h
    norm_num at h


/-- C2 (amended): whenever `optimize_portfolio` returns a non-empty
`winning_portfolio`, the pre-rounding normalised budget percentages sum
to exactly 100 and each `budget_split` is that percentage rounded to one
decimal, so the sum of `budget_split` differs from 100.0 by at most 0.05
per recommendation (hence at most 0.15 for the default `maxAds = 3`; the
claimed universal 0.1 tolerance fails, see the counterexample). -/
theorem optimize_portfolio_budget_sum
    (reactions : List AdReaction) (personas : List EnrichedPersona) (max_ads : Nat)
    (res : PortfolioResult)
    (hres : PortfolioOptimizer.optimize_portfolio reactions personas max_ads = some res)
    (hne : res.winning_portfolio ≠ []) :
    |(res.winning_portfolio.map (fun rec => Frac.toQ rec.budget_split)).sum - 100|
      ≤ res.winning_portfolio.length * (1 / 20) := by
  unfold PortfolioOptimizer.optimize_portfolio at hres
  dsimp only at hres
  set performances := PortfolioOptimizer.calculate_ad_performance reactions personas
    with hperfs
  set ad_ids := performances.map (·.1) with hads
  set so := PortfolioOptimizer.assign_segment_owners
    (PortfolioOptimizer.fragment_audience_into_clusters personas) reactions ad_ids with hso
  set sv := PortfolioOptimizer.seg_value_list so with hsv
  set selected := (sortDescBy (PortfolioOptimizer.alloc_pct_of so sv)
    (ad_ids.filter (fun ad => (5 : Frac).ble (PortfolioOptimizer.alloc_pct_of so sv ad)))).take
      max_ads with hselected
  by_cases hsel : selected.isEmpty = true
  · rw [if_pos hsel] at hres
    cases harg : argmaxFirst ad_ids
        (fun ad => Frac.ofNat ((alookup performances ad).getD defaultPerf).high_intent_leads)
        with
    | none =>
      rw [harg] at hres
      simp at hres
    | some best =>
      rw [harg] at hres
      dsimp only at hres
      rw [Option.some_inj] at hres
      by_cases how : PortfolioOptimizer.owned_segments_of so sv best = []
      · exfalso
        apply hne
        rw [← hres]
        unfold PortfolioOptimizer.mk_result
        dsimp only
        have hn := build_recommendation_none reactions performances so sv
          (fun ad =>
            if (0 : Frac).blt (sumFrac ([best].map
                (fun ad => if ad = best then (100 : Frac)
                  else PortfolioOptimizer.alloc_pct_of so sv ad))) then
              (if ad = best then (100 : Frac)
                else PortfolioOptimizer.alloc_pct_of so sv ad)
                / sumFrac ([best].map (fun ad => if ad = best then (100 : Frac)
                    else PortfolioOptimizer.alloc_pct_of so sv ad)) * 100
            else (if ad = best then (100 : Frac)
              else PortfolioOptimizer.alloc_pct_of so sv ad))
          best how
        rw [List.filterMap_cons, hn]
        rfl
      · rw [← hres]
        apply mk_result_budget
        · simp
        · intro ad had
          rw [List.mem_singleton] at had
          subst had
          rw [if_pos rfl, Frac.toQ_instOfNat]
          norm_num
        · intro ad had
          rw [List.mem_singleton] at had
          subst had
          exact how
  · rw [if_neg hsel] at hres
    rw [Option.some_inj] at hres
    have h5 : ∀ ad ∈ selected, (5 : ℚ) ≤ Frac.toQ (PortfolioOptimizer.alloc_pct_of so sv ad) := by
      intro ad had
      rw [hselected] at had
      have h1 := List.mem_of_mem_take had
      have h2 := (sortDescBy_perm (PortfolioOptimizer.alloc_pct_of so sv) _).mem_iff.mp h1
      rw [List.mem_filter] at h2
      have := (Frac.toQ_ble _ _).mp h2.2
      rw [Frac.toQ_instOfNat] at this
      exact_mod_cast this
    rw [← hres]
    apply mk_result_budget
    · intro h0
      rw [h0] at hsel
      exact hsel rfl
    · intro ad had
      have := h5 ad had
      linarith
    · intro ad had
      apply owned_ne_of_alloc_pos
      have := h5 ad had
      linarith


/-- Witness for C2 at a concrete input. -/
theorem optimize_portfolio_budget_sum_witness :
    PortfolioOptimizer.optimize_portfolio [wR1] [wP1] 3 = some c2Res
    ∧ c2Res.winning_portfolio ≠ []
    ∧ |(c2Res.winning_portfolio.map (fun rec => Frac.toQ rec.budget_split)).sum - 100|
        ≤ c2Res.winning_portfolio.length * (1 / 20) :=
  ⟨rfl, by decide, optimize_portfolio_budget_sum [wR1] [wP1] 3 c2Res rfl (by decide)⟩


/-- Counterexample to C2 as stated: with six equally valuable ads and
`maxAds = 6` every budget share is 50/3, each `budget_split` rounds to
16.7, and the splits sum to 100.2 — outside the claimed 0.1 tolerance. -/
theorem optimize_portfolio_budget_sum_counterexample :
    PortfolioOptimizer.optimize_portfolio c2xR c2xP 6 = some c2xRes
    ∧ c2xRes.winning_portfolio ≠ []
    ∧ ¬ |(c2xRes.winning_portfolio.map (fun rec => Frac.toQ rec.budget_split)).sum - 100|
          ≤ 1 / 10 := by
  refine ⟨rfl, by decide, ?_⟩
  have hb : c2xRes.winning_portfolio.map (fun rec => rec.budget_split)
      = List.replicate 6 (⟨167, 10, by omega⟩ : Frac) := by decide
  have hmm : c2xRes.winning_portfolio.map (fun rec => Frac.toQ rec.budget_split)
      = (c2xRes.winning_portfolio.map (fun rec => rec.budget_split)).map Frac.toQ := by
    rw [List.map_map]
    rfl
  rw [hmm, hb]
  have hval : Frac.toQ (⟨167, 10, by omega⟩ : Frac) = 167 / 10 := by
    unfold Frac.toQ
    norm_num
  simp only [List.map_replicate, List.sum_replicate, hval, smul_eq_mul, nsmul_eq_mul]
  norm_num
  rw [abs_of_pos (show (0 : ℚ) < 1 / 5 by norm_num)]
  norm_num


theorem splitAux_append (z rest acc : List Char) (hz : '_' ∉ z) :
    splitUnderscoreAux acc (z ++ '_' :: rest)
      = (acc.reverse ++ z) :: splitUnderscoreAux [] rest := by
  induction z generalizing acc with
  | nil =>
    show (if ('_' : Char) = '_' then acc.reverse :: splitUnderscoreAux [] rest
      else splitUnderscoreAux ('_' :: acc) rest) = (acc.reverse ++ []) :: splitUnderscoreAux [] rest
    rw [if_pos rfl]
    simp
  | cons c cs ih =>
    have hc : ¬(c = '_') := fun h => hz (h ▸ List.mem_cons_self c cs)
    show (if c = '_' then acc.reverse :: splitUnderscoreAux [] (cs ++ '_' :: rest)
      else splitUnderscoreAux (c :: acc) (cs ++ '_' :: rest)) = _
    rw [if_neg hc, ih (c :: acc) (fun h => hz (List.mem_cons_of_mem c h))]
    simp


theorem splitAux_no_underscore (z acc : List Char) (hz : '_' ∉ z) :
    splitUnderscoreAux acc z = [acc.reverse ++ z] := by
  induction z generalizing acc with
  | nil =>
    show [acc.reverse] = [acc.reverse ++ []]
    simp
  | cons c cs ih =>
    have hc : ¬(c = '_') := fun h => hz (h ▸ List.mem_cons_self c cs)
    show (if c = '_' then acc.reverse :: splitUnderscoreAux [] cs
      else splitUnderscoreAux (c :: acc) cs) = _
    rw [if_neg hc, ih (c :: acc) (fun h => hz (List.mem_cons_of_mem c h))]
    simp


theorem tier_str_no_underscore (t : Tier) : '_' ∉ (Tier.str t).data := by
  cases t <;> decide


theorem tier_str_inj (a b : Tier) (h : Tier.str a = Tier.str b) : a = b := by
  cases a <;> cases b <;> simp_all [Tier.str]


theorem pySplit_label (z : String) (t : Tier) (hz : '_' ∉ z.data) :
    pySplitUnderscore (z ++ "_" ++ t.str) = [z, t.str] := by
  unfold pySplitUnderscore
  have hdata : (z ++ "_" ++ t.str).data = z.data ++ '_' :: t.str.data := by
    rw [string_data_append, string_data_append]
    simp
  rw [hdata, splitAux_append z.data t.str.data [] hz,
      splitAux_no_underscore t.str.data [] (tier_str_no_underscore t)]
  simp


theorem pairLabel_inj (a b : String × Tier) (ha : '_' ∉ a.1.data) (hb : '_' ∉ b.1.data)
    (h : pairLabel a = pairLabel b) : a = b := by
  have hsplit := congrArg pySplitUnderscore h
  unfold pairLabel at hsplit
  rw [pySplit_label a.1 a.2 ha, pySplit_label b.1 b.2 hb] at hsplit
  injection hsplit with h1 h2
  injection h2 with h2 _
  cases a
  cases b
  simp only [Prod.mk.injEq]
  exact ⟨h1, tier_str_inj _ _ h2⟩


theorem personaMapGet_mem (personas : List EnrichedPersona) (u : String) (p : EnrichedPersona)
    (h : personaMapGet personas u = some p) : p ∈ personas := by
  unfold personaMapGet at h
  exact List.mem_reverse.mp (List.mem_of_find?_eq_some h)


theorem discoveredPairs_mem (reactions : List AdReaction) (personas : List EnrichedPersona)
    (zt : String × Tier) (h : zt ∈ discoveredPairs reactions personas) :
    ∃ p ∈ personas, p.zone = zt.1 ∧ p.purchasing_power_tier = zt.2 := by
  unfold discoveredPairs at h
  rw [insertOrderDedup_mem] at h
  obtain ⟨r, _, hr⟩ := List.mem_filterMap.mp h
  cases hp : personaMapGet personas r.persona_uuid with
  | none => rw [hp] at hr; simp at hr
  | some p =>
    rw [hp] at hr
    simp only [Option.map_some', Option.some_inj] at hr
    exact ⟨p, personaMapGet_mem personas r.persona_uuid p hp,
      congrArg Prod.fst hr, congrArg Prod.snd hr⟩


theorem insertOrderDedup_map_aux {α β : Type} [DecidableEq α] [DecidableEq β]
    (f : α → β) (l acc : List α)
    (hinj : ∀ a b, (a ∈ acc ∨ a ∈ l) → (b ∈ acc ∨ b ∈ l) → f a = f b → a = b) :
    (l.map f).foldl (fun acc x => if x ∈ acc then acc else acc ++ [x]) (acc.map f)
      = (l.foldl (fun acc x => if x ∈ acc then acc else acc ++ [x]) acc).map f := by
  induction l generalizing acc with
  | nil => rfl
  | cons x xs ih =>
    simp only [List.map_cons, List.foldl_cons]
    have hmem : f x ∈ acc.map f ↔ x ∈ acc := by
      constructor
      · intro h
        obtain ⟨a, ha, hfa⟩ := List.mem_map.mp h
        have := hinj a x (Or.inl ha) (Or.inr (List.mem_cons_self _ _)) hfa
        rw [← this]
        exact ha
      · exact List.mem_map_of_mem f
    by_cases hx : x ∈ acc
    · rw [if_pos hx, if_pos (hmem.mpr hx)]
      exact ih acc (fun a b ha hb => hinj a b
        (ha.imp id (List.mem_cons_of_mem x)) (hb.imp id (List.mem_cons_of_mem x)))
    · rw [if_neg hx, if_neg (fun h => hx (hmem.mp h))]
      have : acc.map f ++ [f x] = (acc ++ [x]).map f := by simp
      rw [this]
      apply ih (acc ++ [x])
      intro a b ha hb
      apply hinj a b
      · rcases ha with ha | ha
        · rcases List.mem_append.mp ha with h | h
          · exact Or.inl h
          · exact Or.inr (by simp at h; rw [h]; exact List.mem_cons_self _ _)
        · exact Or.inr (List.mem_cons_of_mem x ha)
      · rcases hb with hb | hb
        · rcases List.mem_append.mp hb with h | h
          · exact Or.inl h
          · exact Or.inr (by simp at h; rw [h]; exact List.mem_cons_self _ _)
        · exact Or.inr (List.mem_cons_of_mem x hb)


theorem insertOrderDedup_map {α β : Type} [DecidableEq α] [DecidableEq β]
    (f : α → β) (l : List α)
    (hinj : ∀ a ∈ l, ∀ b ∈ l, f a = f b → a = b) :
    insertOrderDedup (l.map f) = (insertOrderDedup l).map f := by
  unfold insertOrderDedup
  have := insertOrderDedup_map_aux f l []
    (fun a b ha hb => hinj a (ha.resolve_left (by simp)) b (hb.resolve_left (by simp)))
  simpa using this


theorem insertAscStr_map_label (x : String × Tier) (ys : List (String × Tier)) :
    insertAscStr (pairLabel x) (ys.map pairLabel) = (insertPairAsc x ys).map pairLabel := by
  induction ys with
  | nil => rfl
  | cons y ys ih =>
    simp only [List.map_cons]
    unfold insertAscStr insertPairAsc
    by_cases h : strLt (pairLabel x) (pairLabel y) = true
    · rw [if_pos h, if_pos h]
      simp
    · rw [if_neg h, if_neg h]
      simp only [List.map_cons]
      rw [ih]


theorem sortStrings_map_label (l : List (String × Tier)) :
    sortStrings (l.map pairLabel) = (sortPairsByLabel l).map pairLabel := by
  induction l with
  | nil => rfl
  | cons x xs ih =>
    unfold sortStrings sortPairsByLabel
    simp only [List.map_cons, List.foldr_cons]
    show insertAscStr (pairLabel x) (sortStrings (xs.map pairLabel)) = _
    rw [ih]
    exact insertAscStr_map_label x (sortPairsByLabel xs)


theorem insertPairAsc_perm (x : String × Tier) (l : List (String × Tier)) :
    List.Perm (insertPairAsc x l) (x :: l) := by
  induction l with
  | nil => simp [insertPairAsc]
  | cons y ys ih =>
    unfold insertPairAsc
    by_cases h : strLt (pairLabel x) (pairLabel y) = true
    · rw [if_pos h]
    · rw [if_neg h]
      exact (List.Perm.cons y ih).trans (List.Perm.swap x y ys)


theorem sortPairsByLabel_perm (l : List (String × Tier)) :
    List.Perm (sortPairsByLabel l) l := by
  induction l with
  | nil => simp [sortPairsByLabel]
  | cons y ys ih =>
    unfold sortPairsByLabel
    exact (insertPairAsc_perm y _).trans (List.Perm.cons y ih)


theorem tier_str_beq (t t0 : Tier) :
    decide (Tier.str t = Tier.str t0) = decide (t = t0) := by
  cases t <;> cases t0 <;> rfl


/-- C8 (amended): when at least one Zone-by-IncomeTier segment is
discovered and no persona's zone contains an underscore (so the joined
`{zone}_{tier}` label splits back unambiguously),
`generate_heatmap_matrix` has one row per discovered segment in ascending
label order, one column per given ad id, and every cell is the emoji of
the enum value determined by the segment-and-ad high-intent conversion
rate: no matching reactions gives `no_data`, at least 30 percent gives
`strong`, at least 15 `medium`, at least 5 `weak`, otherwise `poor`.
With no discovered segment the source instead emits one placeholder
`No_Data` row (see the counterexample). -/
theorem generate_heatmap_matrix_spec
    (reactions : List AdReaction) (personas : List EnrichedPersona) (ad_ids : List String)
    (hzone : ∀ p ∈ personas, ('_' : Char) ∉ p.zone.data)
    (hne : discoveredPairs reactions personas ≠ []) :
    (PortfolioOptimizer.generate_heatmap_matrix reactions personas ad_ids).rows
        = (sortPairsByLabel (discoveredPairs reactions personas)).map pairLabel
    ∧ (PortfolioOptimizer.generate_heatmap_matrix reactions personas ad_ids).cols = ad_ids
    ∧ (PortfolioOptimizer.generate_heatmap_matrix reactions personas ad_ids).matrix
        = (sortPairsByLabel (discoveredPairs reactions personas)).map
            (fun zt => ad_ids.map
              (fun ad => (specCellEnum reactions personas zt.1 zt.2 ad).emoji)) := by
  have hzone_pair : ∀ zt ∈ discoveredPairs reactions personas, ('_' : Char) ∉ zt.1.data := by
    intro zt hzt
    obtain ⟨p, hp, hz, -⟩ := discoveredPairs_mem reactions personas zt hzt
    rw [← hz]
    exact hzone p hp
  have hraw : ((reactions.filter PortfolioOptimizer.is_engaged).filterMap (fun r =>
        (personaMapGet personas r.persona_uuid).map
          (fun p => p.zone ++ "_" ++ p.purchasing_power_tier.str)))
      = ((reactions.filter PortfolioOptimizer.is_engaged).filterMap (fun r =>
          (personaMapGet personas r.persona_uuid).map
            (fun p => (p.zone, p.purchasing_power_tier)))).map pairLabel := by
    rw [List.map_filterMap]
    apply List.filterMap_congr
    intro r _
    rw [Option.map_map]
    rfl
  have hinj : ∀ a ∈ (reactions.filter PortfolioOptimizer.is_engaged).filterMap (fun r =>
        (personaMapGet personas r.persona_uuid).map
          (fun p => (p.zone, p.purchasing_power_tier))),
      ∀ b ∈ (reactions.filter PortfolioOptimizer.is_engaged).filterMap (fun r =>
        (personaMapGet personas r.persona_uuid).map
          (fun p => (p.zone, p.purchasing_power_tier))),
      pairLabel a = pairLabel b → a = b := by
    intro a ha b hb hab
    have ha' : a ∈ discoveredPairs reactions personas := by
      unfold discoveredPairs
      rw [insertOrderDedup_mem]
      exact ha
    have hb' : b ∈ discoveredPairs reactions personas := by
      unfold discoveredPairs
      rw [insertOrderDedup_mem]
      exact hb
    exact pairLabel_inj a b (hzone_pair a ha') (hzone_pair b hb') hab
  have hsegments : sortStrings (insertOrderDedup
        ((reactions.filter PortfolioOptimizer.is_engaged).filterMap (fun r =>
          (personaMapGet personas r.persona_uuid).map
            (fun p => p.zone ++ "_" ++ p.purchasing_power_tier.str))))
      = (sortPairsByLabel (discoveredPairs reactions personas)).map pairLabel := by
    rw [hraw, insertOrderDedup_map pairLabel _ hinj]
    show sortStrings ((discoveredPairs reactions personas).map pairLabel) = _
    exact sortStrings_map_label _
  have hlen2 : ((sortPairsByLabel (discoveredPairs reactions personas)).map
      pairLabel).length = (discoveredPairs reactions personas).length := by
    rw [List.length_map]
    exact (sortPairsByLabel_perm _).length_eq
  have hsegne : ((sortPairsByLabel (discoveredPairs reactions personas)).map
      pairLabel).isEmpty = false := by
    cases hmap : (sortPairsByLabel (discoveredPairs reactions personas)).map pairLabel with
    | nil =>
      rw [hmap] at hlen2
      exact absurd (List.eq_nil_of_length_eq_zero hlen2.symm) hne
    | cons a l => rfl
  unfold PortfolioOptimizer.generate_heatmap_matrix
  dsimp only
  rw [hsegments, hsegne]
  rw [if_neg (by simp)]
  refine ⟨rfl, rfl, ?_⟩
  dsimp only
  rw [List.map_map]
  apply List.map_congr_left
  intro zt hzt
  have hztd : zt ∈ discoveredPairs reactions personas :=
    (sortPairsByLabel_perm _).mem_iff.mp hzt
  have hz := hzone_pair zt hztd
  have hsplit : pySplitUnderscore (pairLabel zt) = [zt.1, zt.2.str] :=
    pySplit_label zt.1 zt.2 hz
  simp only [Function.comp_apply]
  apply List.map_congr_left
  intro ad _
  dsimp only
  rw [hsplit]
  rw [if_neg (by simp)]
  have hget0 : (([zt.1, zt.2.str].get? 0).getD "") = zt.1 := rfl
  have hget1 : (([zt.1, zt.2.str].get? 1).getD "") = zt.2.str := rfl
  rw [hget0, hget1]
  have hfilter : reactions.filter (fun r =>
        r.ad_id = ad &&
        match personaMapGet personas r.persona_uuid with
        | some p => p.zone = zt.1 && p.purchasing_power_tier.str = zt.2.str
        | none => false)
      = reactions.filter (fun r =>
        r.ad_id = ad &&
        match personaMapGet personas r.persona_uuid with
        | some p => p.zone = zt.1 && p.purchasing_power_tier = zt.2
        | none => false) := by
    apply List.filter_congr
    intro r _
    cases hpm : personaMapGet personas r.persona_uuid with
    | none => rfl
    | some p =>
      simp only [tier_str_beq]
  rw [hfilter]
  unfold specCellEnum
  dsimp only
  simp only [apply_ite HeatCell.emoji]
  rfl


/-- Counterexample to C8 as stated: with no reactions nothing is
discovered, yet the matrix has one placeholder row `No_Data` rather than
zero rows — not "one row per discovered segment". -/
theorem generate_heatmap_matrix_counterexample :
    (PortfolioOptimizer.generate_heatmap_matrix [] [] ["ad_1"]).rows = ["No_Data"]
    ∧ (PortfolioOptimizer.generate_heatmap_matrix [] [] ["ad_1"]).rows.length = 1
    ∧ discoveredPairs [] [] = [] := by
  decide


/-- Witness for the amended C8 at a concrete input. -/
theorem generate_heatmap_matrix_spec_witness :
    (∀ p ∈ [wP1], ('_' : Char) ∉ p.zone.data)
    ∧ discoveredPairs [wR1] [wP1] ≠ []
    ∧ ((PortfolioOptimizer.generate_heatmap_matrix [wR1] [wP1] ["ad_1"]).rows
          = (sortPairsByLabel (discoveredPairs [wR1] [wP1])).map pairLabel
      ∧ (PortfolioOptimizer.generate_heatmap_matrix [wR1] [wP1] ["ad_1"]).cols = ["ad_1"]
      ∧ (PortfolioOptimizer.generate_heatmap_matrix [wR1] [wP1] ["ad_1"]).matrix
          = (sortPairsByLabel (discoveredPairs [wR1] [wP1])).map
              (fun zt => ["ad_1"].map
                (fun ad => (specCellEnum [wR1] [wP1] zt.1 zt.2 ad).emoji))) :=
  ⟨by decide, by decide,
   generate_heatmap_matrix_spec [wR1] [wP1] ["ad_1"] (by decide) (by decide)⟩
